import Mathlib

/-!
# Uniform registry of `GLWidget` (src/glwidget.cpp)

A shallow embedding of the part of `GLWidget` that owns the uniform
collections: `activeUniforms`, `permUniforms` and `s_staticVars` are lists of
pointers to heap-allocated `UniformVariable` objects.  Objects live in an
explicit heap so that pointer identity (`uniform == sv`), in-place mutation
(`setPermanent`) and `delete` are visible in the model.  Qt signals are
recorded, in emission order, in the result of the operation that emits them;
the slots connected to them are outside this translation unit.
-/

namespace GLWidgetModel

/-- Modelled from the spec: the enumeration `UniformVariable::Type`, declared in
uniforms/uniformvariable.h which is not part of the sources.  The spec lists
the closed set of variants (scalar, 2/3-component vector, 4x4 matrix,
elapsed-time, 2-D texture, cube-map texture); the constant names are the ones
`initializeGL` uses. -/
inductive UniformType where
  | TYPE_FLOAT
  | TYPE_FLOAT2
  | TYPE_FLOAT3
  | TYPE_MAT4
  | TYPE_TIME
  | TYPE_TEX2D
  | TYPE_TEXCUBE
  deriving DecidableEq, Repr

/-- Modelled from the spec: the class `UniformVariable` (uniforms/uniformvariable.h,
not part of the sources), reduced to the attributes the registry reads through
`getName`, `getType`, `getPermanent` and `toString`: its name, its variant, the
permanence flag, and the formatted payload that `toString()` returns. -/
structure UniformVariable where
  name : String
  type : UniformType
  permanent : Bool
  value : String
  deriving DecidableEq, Repr

/-- `u->setPermanent(b)`. -/
def UniformVariable.setPermanent (u : UniformVariable) (b : Bool) : UniformVariable :=
  { u with permanent := b }

/-- The test in `loadUniforms`:
`!v->getName().compare(u->getName()) && v->getType() == u->getType()`. -/
def sameBinding (v u : UniformVariable) : Bool :=
  decide (v.name = u.name) && decide (v.type = u.type)

/-- The C++ free store as far as `UniformVariable` objects are concerned.  A
pointer `UniformVariable *` is an address, a natural number: `cells p` is the
object at address `p`, if one is allocated there, and `brk` is the next
address `new` hands out. -/
structure Heap where
  cells : Nat → Option UniformVariable
  brk : Nat

/-- `new UniformVariable(...)`: the object is placed at a fresh address. -/
def Heap.alloc (h : Heap) (x : UniformVariable) : Nat × Heap :=
  (h.brk, { cells := fun q => if q = h.brk then some x else h.cells q, brk := h.brk + 1 })

/-- The effect of `delete p` on the store: the object at `p` is gone; reading `p`
afterwards has no value.  `loadUniforms` deletes through it the objects it
owns (the overflow entries and the candidates of the file). -/
def Heap.free (h : Heap) (p : Nat) : Heap :=
  { h with cells := fun q => if q = p then none else h.cells q }

/-- Write through a pointer (`utemp->...` on the object at `p`). -/
def Heap.store (h : Heap) (p : Nat) (x : UniformVariable) : Heap :=
  { h with cells := fun q => if q = p then some x else h.cells q }

/-- Allocation of a sequence of objects, in order; returns their addresses. -/
def Heap.allocAll (h : Heap) : List UniformVariable → List Nat × Heap
  | [] => ([], h)
  | x :: xs => ((h.alloc x).1 :: ((h.alloc x).2.allocAll xs).1, ((h.alloc x).2.allocAll xs).2)

/-- The members of `GLWidget` that make up the uniform registry. -/
structure GLWidget where
  heap : Heap
  activeUniforms : List Nat
  permUniforms : List Nat
  s_staticVars : List Nat

/-- The signal `changeUniform(const UniformVariable *, QString)`. -/
structure ChangeUniform where
  uniform : Nat
  text : String
  deriving DecidableEq, Repr

/-- The signal `addUniform(UniformVariable::Type, QString, bool, int)`. -/
structure AddUniform where
  type : UniformType
  name : String
  permanent : Bool
  arraySize : Int
  deriving DecidableEq, Repr

/-- The inner loop of `loadUniforms`, `foreach (u, *activeUniforms)`, for the
candidate at `v`: every active `u` with `v`'s name and type gets `v`'s
permanence flag, a `changeUniform(u, v->toString())` is emitted and `match` is
set.  Reading through a pointer with no object behind it has no result. -/
def loadUniforms.scan (v : Nat) :
    List Nat → Heap → Bool → List ChangeUniform → Option (Heap × Bool × List ChangeUniform)
  | [], h, m, out => some (h, m, out)
  | u :: us, h, m, out =>
    match h.cells v, h.cells u with
    | some vv, some uu =>
      if sameBinding vv uu then
        loadUniforms.scan v us (h.store u (uu.setPermanent vv.permanent)) true
          (out ++ [⟨u, vv.value⟩])
      else loadUniforms.scan v us h m out
    | _, _ => none

/-- The outer loop of `loadUniforms`, `foreach (v, fromFile)`: after the scan of
the active set, an unmatched permanent candidate is appended to `permUniforms`
and every other candidate is deleted. -/
def loadUniforms.merge (active : List Nat) :
    List Nat → Heap → List Nat → List ChangeUniform →
      Option (Heap × List Nat × List ChangeUniform)
  | [], h, perm, out => some (h, perm, out)
  | v :: vs, h, perm, out =>
    match loadUniforms.scan v active h false out with
    | none => none
    | some (h1, m, out1) =>
      if m then loadUniforms.merge active vs (h1.free v) perm out1
      else
        match h1.cells v with
        | none => none
        | some vv =>
          if vv.permanent then loadUniforms.merge active vs h1 (perm ++ [v]) out1
          else loadUniforms.merge active vs (h1.free v) perm out1

/-- The head of `loadUniforms`: every overflow object is deleted and
`permUniforms.clear()` empties the list, before the file is read. -/
def loadUniforms.cleared (w : GLWidget) : GLWidget :=
  { w with heap := w.permUniforms.foldl Heap.free w.heap, permUniforms := [] }

/-- What a call of `loadUniforms` leaves behind: the returned `bool`, the
registry, and the `changeUniform` signals emitted, in order. -/
structure LoadOutcome where
  ok : Bool
  widget : GLWidget
  emitted : List ChangeUniform

/-- `GLWidget::loadUniforms(path)`.  `VarsFile::load` (uniforms/varsfile.h) is not
part of the sources; its outcome for `path` is the argument `file`: `none`
when it returns false, and `some parsed` when it returns true having filled
`fromFile` with newly allocated objects holding the values `parsed`, in file
order. -/
def loadUniforms (w : GLWidget) (file : Option (List UniformVariable)) : Option LoadOutcome :=
  match file with
  | none => some ⟨false, loadUniforms.cleared w, []⟩
  | some parsed =>
    match loadUniforms.merge w.activeUniforms
        ((loadUniforms.cleared w).heap.allocAll parsed).1
        ((loadUniforms.cleared w).heap.allocAll parsed).2 [] [] with
    | none => none
    | some (h2, perm, out) => some ⟨true, { w with heap := h2, permUniforms := perm }, out⟩

/-- `QList::removeAll(t)`: every element equal to `t` is taken out of the list. -/
def removeAll : List Nat → Nat → List Nat
  | [], _ => []
  | y :: ys, t => if y = t then removeAll ys t else y :: removeAll ys t

/-- `delete p` where the same address can be met again: it is defined only while
an object is at `p`; deleting an address with no object behind it (a second
delete, or a dangling pointer) has no result. -/
def Heap.delete (h : Heap) (p : Nat) : Option Heap :=
  match h.cells p with
  | some _ => some (h.free p)
  | none => none

/-- The second loop of `uniformDeleted`, `foreach (v, *activeUniforms)`: `delete v`
runs once for every position of the list that holds `uniform`. -/
def uniformDeleted.sweep (uniform : Nat) : List Nat → Heap → Option Heap
  | [], h => some h
  | v :: vs, h =>
    if uniform = v then
      match h.delete v with
      | some h1 => uniformDeleted.sweep uniform vs h1
      | none => none
    else uniformDeleted.sweep uniform vs h

/-- `GLWidget::uniformDeleted(uniform)`: nothing happens for a member of
`s_staticVars`; otherwise `delete v` runs for every active position equal to
`uniform` and `removeAll` takes it out of `activeUniforms`.  There is no result
when a `delete` meets an address with no object behind it. -/
def uniformDeleted (w : GLWidget) (uniform : Nat) : Option GLWidget :=
  if w.s_staticVars.any (fun sv => decide (uniform = sv)) then some w
  else
    match uniformDeleted.sweep uniform w.activeUniforms w.heap with
    | some h => some { w with heap := h, activeUniforms := removeAll w.activeUniforms uniform }
    | none => none

/-- `GLWidget::uniformAdded(uniform)`: `activeUniforms->append(uniform)`. -/
def uniformAdded (w : GLWidget) (uniform : Nat) : GLWidget :=
  { w with activeUniforms := w.activeUniforms ++ [uniform] }

/-- The constructor `GLWidget::GLWidget`, as far as the registry goes:
`activeUniforms` and `s_staticVars` are new empty containers and `permUniforms`
is default-constructed. -/
def GLWidget.ctor (h : Heap) : GLWidget :=
  { heap := h, activeUniforms := [], permUniforms := [], s_staticVars := [] }

/-- `GLWidget::initializeGL`, the part that builds the built-in uniforms: nine
objects are created, named and typed (three of them are given a payload with
`parse`) and pushed onto `s_staticVars`.  `blank` is what the constructor
`UniformVariable(context)` yields (uniforms/uniformvariable.h is not part of
the sources); `parse(text)` is taken to store the payload that `toString()`
formats.  `s_textureMap` stays NULL and is not registered. -/
def initializeGL (blank : UniformVariable) (w : GLWidget) : GLWidget :=
  let s_skybox := w.heap.alloc { blank with
    name := "skybox", type := UniformType.TYPE_TEXCUBE,
    value := ":/skybox/posy.jpg,:/skybox/negy.jpg,:/skybox/negx.jpg,:/skybox/posx.jpg,:/skybox/posz.jpg,:/skybox/negz.jpg" }
  let s_model := s_skybox.2.alloc { blank with
    name := "model", type := UniformType.TYPE_MAT4, value := "1,0,0,0,0,1,0,0,0,0,1,0,0,0,0,1" }
  let s_projection := s_model.2.alloc { blank with name := "projection", type := UniformType.TYPE_MAT4 }
  let s_view := s_projection.2.alloc { blank with name := "view", type := UniformType.TYPE_MAT4 }
  let s_mvp := s_view.2.alloc { blank with name := "mvp", type := UniformType.TYPE_MAT4 }
  let s_time := s_mvp.2.alloc { blank with name := "time", type := UniformType.TYPE_TIME }
  let s_size := s_time.2.alloc { blank with name := "size", type := UniformType.TYPE_FLOAT2 }
  let s_mouse := s_size.2.alloc { blank with name := "mouse", type := UniformType.TYPE_FLOAT3 }
  let s_normalMap := s_mouse.2.alloc { blank with
    name := "normalMap", type := UniformType.TYPE_TEX2D, value := ":/images/images/brickwall_normal.jpg" }
  { w with
    heap := s_normalMap.2
    s_staticVars := w.s_staticVars ++
      [s_skybox.1, s_model.1, s_projection.1, s_view.1, s_mvp.1, s_time.1, s_size.1, s_mouse.1,
        s_normalMap.1] }

/-- One active uniform as `glGetActiveUniform` reports it: the name, the array
size and the GL type enumeration value. -/
structure ActiveUniform where
  name : String
  arraySize : Int
  type : Nat
  deriving DecidableEq, Repr

/-- `QString::startsWith`: `pre` is an initial segment of `s`. -/
def startsWith (s pre : String) : Bool := pre.data.isPrefixOf s.data

/-- The introspection loop of `loadShader` over the uniforms the program
reports: a name starting with "gl_" is skipped, every other uniform causes
`addUniform(uniformType, qname, true, arraySize)`.  `typeFromGLEnum` is
`UniformVariable::typeFromGLEnum`, which is not part of the sources. -/
def loadShader.introspect (typeFromGLEnum : Nat → UniformType) :
    List ActiveUniform → List AddUniform
  | [] => []
  | a :: rest =>
    if startsWith a.name "gl_" then loadShader.introspect typeFromGLEnum rest
    else ⟨typeFromGLEnum a.type, a.name, true, a.arraySize⟩
      :: loadShader.introspect typeFromGLEnum rest

/-- What a call of `loadShader` leaves behind: the returned `bool`, the registry,
and the `addUniform` signals emitted, in order. -/
structure ShaderOutcome where
  ok : Bool
  widget : GLWidget
  emitted : List AddUniform

/-- `GLWidget::loadShader(vert, frag, errors)`.  `program` is the outcome of
`ResourceLoader::newShaderProgram`: `none` when it returns NULL, otherwise the
active uniforms of the new program in the order of their GL index.  The body
writes none of `activeUniforms`, `permUniforms`, `s_staticVars`. -/
def loadShader (typeFromGLEnum : Nat → UniformType) (w : GLWidget)
    (program : Option (List ActiveUniform)) : ShaderOutcome :=
  match program with
  | none => ⟨false, w, []⟩
  | some reported => ⟨true, w, loadShader.introspect typeFromGLEnum reported⟩

/-- What a call of `saveUniforms` leaves behind: the returned `bool`, the
registry, and the list `toSave` handed to `VarsFile::save`. -/
structure SaveOutcome where
  ok : Bool
  widget : GLWidget
  toSave : List Nat

/-- `GLWidget::saveUniforms(path)`: `toSave` collects the active pointers and then
the overflow pointers, one `toSave += v` at a time, and the result of
`VarsFile::save(path, &toSave)` is returned.  `VarsFile::save`
(uniforms/varsfile.h) is not part of the sources; `save` is its result for
`path`, given the list and the objects the pointers (to const) lead to. -/
def saveUniforms (save : List Nat → Heap → Bool) (w : GLWidget) : SaveOutcome :=
  let fromActive := w.activeUniforms.foldl (fun toSave v => toSave ++ [v]) []
  let toSave := w.permUniforms.foldl (fun toSave v => toSave ++ [v]) fromActive
  ⟨save toSave w.heap, w, toSave⟩

/-! ## Closed forms used in the statements -/

/-- Whether the active pointer `u` holds, in heap `h`, an object with the name
and type of the candidate value `x`. -/
def hits (h : Heap) (x : UniformVariable) (u : Nat) : Bool :=
  match h.cells u with
  | some uu => sameBinding x uu
  | none => false

/-- The object `u` after the candidate `v` was scanned against it. -/
def adopt (v u : UniformVariable) : UniformVariable :=
  if sameBinding v u then u.setPermanent v.permanent else u

/-- The permanence flag of the last candidate in `C` with `u`'s name and type,
or `u`'s own flag when there is none. -/
def lastFlag (C : List UniformVariable) (u : UniformVariable) : Bool :=
  match C.reverse.find? (fun v => sameBinding v u) with
  | some v => v.permanent
  | none => u.permanent

/-- What is left at a candidate's address once the merge is over: the candidate
itself when it is permanent and matched nothing, no object otherwise. -/
def settle (h : Heap) (active : List Nat) (q : Nat) : Option UniformVariable :=
  match h.cells q with
  | some x => if x.permanent && !active.any (hits h x) then some x else none
  | none => none

/-- The signals a candidate value `x` causes: one per active pointer that holds
an object with `x`'s name and type, in active-set order, each carrying that
pointer and `x`'s formatted value. -/
def signalsFor (h : Heap) (active : List Nat) (x : UniformVariable) : List ChangeUniform :=
  (active.filter (hits h x)).map (fun u => ⟨u, x.value⟩)

/-- Whether a candidate value is permanent and matches no active uniform. -/
def overflows (h : Heap) (active : List Nat) (x : UniformVariable) : Bool :=
  x.permanent && !active.any (hits h x)

/-- Pointer discipline of a registry state: every active pointer has an object
behind it, was handed out by the allocator, and is not owned by the overflow
list; the overflow pointers were handed out by the allocator too. -/
def Sound (w : GLWidget) : Prop :=
  (∀ u ∈ w.activeUniforms,
      (w.heap.cells u).isSome = true ∧ u < w.heap.brk ∧ u ∉ w.permUniforms) ∧
    ∀ p ∈ w.permUniforms, p < w.heap.brk

instance (w : GLWidget) : Decidable (Sound w) := by
  unfold Sound; infer_instance

/-- The addresses `VarsFile::load` allocates for `n` candidates, in file order. -/
def candidateAddrs (h : Heap) (n : Nat) : List Nat := List.range' h.brk n

/-- A heap holding the given objects at the addresses 0, 1, 2, ... -/
def Heap.ofList (xs : List UniformVariable) : Heap :=
  { cells := fun q => xs[q]?, brk := xs.length }

/-- The (name, variant) pairs of the active set, in order; `none` stands for an
active pointer with no object behind it. -/
def activeKeys (w : GLWidget) : List (Option (String × UniformType)) :=
  w.activeUniforms.map (fun u => (w.heap.cells u).map (fun x => (x.name, x.type)))

/-- The active set holds one binding, never two, for each (name, variant). -/
def OneBindingEach (w : GLWidget) : Prop := (activeKeys w).Nodup

instance (w : GLWidget) : Decidable (OneBindingEach w) := by
  unfold OneBindingEach; infer_instance

/-- The registry states reachable from one with an empty active set through
`uniformAdded`, `uniformDeleted` and `loadUniforms`, where `admits w x` says
which uniforms `x` a caller may pass to `uniformAdded` in state `w`. -/
inductive Reachable (admits : GLWidget → Nat → Prop) : GLWidget → Prop
  | start (w : GLWidget) :
      w.activeUniforms = [] → (∀ q, w.heap.brk ≤ q → w.heap.cells q = none) →
      (∀ p ∈ w.permUniforms, p < w.heap.brk) → Reachable admits w
  | added (w : GLWidget) (x : Nat) :
      Reachable admits w → admits w x → Reachable admits (uniformAdded w x)
  | deleted (w w2 : GLWidget) (x : Nat) :
      Reachable admits w → uniformDeleted w x = some w2 → Reachable admits w2
  | loaded (w : GLWidget) (file : Option (List UniformVariable)) (r : LoadOutcome) :
      Reachable admits w → loadUniforms w file = some r → Reachable admits r.widget

/-- A caller of `uniformAdded` passes a live uniform that is not an overflow
entry and whose (name, variant) no active entry holds. -/
def FreshBinding (w : GLWidget) (x : Nat) : Prop :=
  x ∉ w.permUniforms ∧
    ∃ xx, w.heap.cells x = some xx ∧ some (xx.name, xx.type) ∉ activeKeys w

/-- A registry with two active uniforms and one overflow entry. -/
def demoWidget : GLWidget :=
  { heap := Heap.ofList
      [⟨"color", UniformType.TYPE_FLOAT3, false, "1,0,0"⟩,
        ⟨"shininess", UniformType.TYPE_FLOAT, false, "8"⟩,
        ⟨"stale", UniformType.TYPE_FLOAT, true, "3"⟩]
    activeUniforms := [0, 1]
    permUniforms := [2]
    s_staticVars := [] }

/-- The candidates of a file: one matches the active `color`, one reuses the
name `color` with another type, one is not permanent and matches nothing. -/
def demoFile : List UniformVariable :=
  [⟨"color", UniformType.TYPE_FLOAT3, true, "0,1,0"⟩,
    ⟨"color", UniformType.TYPE_FLOAT, true, "5"⟩,
    ⟨"fog", UniformType.TYPE_FLOAT, false, "0.5"⟩]

/-- A permanent uniform that no shader of the demo exposes yet. -/
def tint : UniformVariable := ⟨"tint", UniformType.TYPE_FLOAT3, true, "1,0,0"⟩

/-- A type mapper for the demo: GL_FLOAT_VEC3 (0x8B51) is a 3-vector, everything
else a scalar. -/
def demoTypeFromGLEnum (t : Nat) : UniformType :=
  if t = 35665 then UniformType.TYPE_FLOAT3 else UniformType.TYPE_FLOAT

/-- What the constructor of `UniformVariable` yields in the demo. -/
def demoBlank : UniformVariable := ⟨"", UniformType.TYPE_FLOAT, false, ""⟩

/-- Two distinct objects with the same name and variant. -/
def twinHeap : Heap :=
  Heap.ofList
    [⟨"color", UniformType.TYPE_FLOAT3, false, "1,0,0"⟩,
      ⟨"color", UniformType.TYPE_FLOAT3, false, "0,1,0"⟩]

/-- A registry whose only active uniform is permanent, with nothing in overflow. -/
def glowWidget : GLWidget :=
  { heap := Heap.ofList [⟨"glow", UniformType.TYPE_FLOAT, true, "2"⟩]
    activeUniforms := [0]
    permUniforms := []
    s_staticVars := [] }

/-- What the registry operations maintain when callers of `uniformAdded` only
pass fresh bindings: no object beyond the allocator's mark, the pointer
discipline, and one active binding per (name, variant). -/
def Maintained (w : GLWidget) : Prop :=
  (∀ q, w.heap.brk ≤ q → w.heap.cells q = none) ∧ Sound w ∧ OneBindingEach w

/-! ## Basic facts -/

@[simp] theorem sameBinding_setPermanent (v u : UniformVariable) (b : Bool) :
    sameBinding v (u.setPermanent b) = sameBinding v u := rfl

@[simp] theorem sameBinding_adopt (x v u : UniformVariable) :
    sameBinding x (adopt v u) = sameBinding x u := by
  unfold adopt; split <;> rfl

theorem adopt_adopt (v u : UniformVariable) : adopt v (adopt v u) = adopt v u := by
  unfold adopt
  by_cases hb : sameBinding v u = true <;> simp [hb, UniformVariable.setPermanent]

theorem hits_store (h : Heap) (x : UniformVariable) (p : Nat) (uu : UniformVariable)
    (b : Bool) (hp : h.cells p = some uu) (u : Nat) :
    hits (h.store p (uu.setPermanent b)) x u = hits h x u := by
  unfold hits Heap.store
  by_cases hu : u = p
  · subst hu; simp [hp]
  · simp [hu]

theorem scan_spec (v : Nat) (vv : UniformVariable) (us : List Nat) :
    ∀ (h : Heap) (m : Bool) (out : List ChangeUniform),
      h.cells v = some vv → v ∉ us → (∀ u ∈ us, ∃ uu, h.cells u = some uu) →
      ∃ h2, loadUniforms.scan v us h m out
          = some (h2, m || us.any (hits h vv),
              out ++ (us.filter (hits h vv)).map (fun u => ⟨u, vv.value⟩))
        ∧ h2.brk = h.brk
        ∧ ∀ q, h2.cells q = if q ∈ us then (h.cells q).map (adopt vv) else h.cells q := by
  induction us with
  | nil =>
    intro h m out _ _ _
    exact ⟨h, by simp [loadUniforms.scan], rfl, by simp⟩
  | cons u us ih =>
    intro h m out hv hnot hlive
    obtain ⟨uu, hu⟩ := hlive u (List.mem_cons_self _ _)
    have hvu : v ≠ u := fun e => hnot (e ▸ List.mem_cons_self _ _)
    have hnot2 : v ∉ us := fun e => hnot (List.mem_cons_of_mem _ e)
    by_cases hb : sameBinding vv uu = true
    · have hv1 : (h.store u (uu.setPermanent vv.permanent)).cells v = some vv := by
        simp [Heap.store, hvu, hv]
      have hlive1 : ∀ t ∈ us, ∃ tt, (h.store u (uu.setPermanent vv.permanent)).cells t = some tt := by
        intro t ht
        by_cases htu : t = u
        · exact ⟨uu.setPermanent vv.permanent, by simp [Heap.store, htu]⟩
        · obtain ⟨tt, htt⟩ := hlive t (List.mem_cons_of_mem _ ht)
          exact ⟨tt, by simp [Heap.store, htu, htt]⟩
      obtain ⟨h2, e2, b2, c2⟩ := ih (h.store u (uu.setPermanent vv.permanent)) true
        (out ++ [⟨u, vv.value⟩]) hv1 hnot2 hlive1
      have hh : hits (h.store u (uu.setPermanent vv.permanent)) vv = hits h vv :=
        funext (hits_store h vv u uu vv.permanent hu)
      have hhu : hits h vv u = true := by simp [hits, hu, hb]
      refine ⟨h2, ?_, ?_, ?_⟩
      · simp only [loadUniforms.scan, hv, hu, hb, if_true, e2, hh]
        simp [hhu, List.filter_cons]
      · simpa [Heap.store] using b2
      · intro q
        rw [c2 q]
        by_cases hq : q = u
        · subst hq
          have ha : adopt vv uu = uu.setPermanent vv.permanent := by simp [adopt, hb]
          by_cases hm : q ∈ us
          · simp [hm, Heap.store, hu, ← ha, adopt_adopt]
          · simp [hm, Heap.store, hu, ← ha]
        · simp [hq, Heap.store]
    · obtain ⟨h2, e2, b2, c2⟩ := ih h m out hv hnot2
        (fun t ht => hlive t (List.mem_cons_of_mem _ ht))
      have hhu : hits h vv u = false := by simp [hits, hu, hb]
      refine ⟨h2, ?_, b2, ?_⟩
      · simp only [loadUniforms.scan, hv, hu, hb, e2]
        simp [hhu, List.filter_cons]
      · intro q
        rw [c2 q]
        by_cases hq : q = u
        · subst hq
          have ha : adopt vv uu = uu := by simp [adopt, hb]
          by_cases hm : q ∈ us
          · simp [hm]
          · simp [hm, hu, ha]
        · simp [hq]

theorem setPermanent_adopt (v u : UniformVariable) (b : Bool) :
    (adopt v u).setPermanent b = u.setPermanent b := by
  unfold adopt; split <;> rfl

theorem lastFlag_cons (x : UniformVariable) (C : List UniformVariable) (u : UniformVariable) :
    lastFlag (x :: C) u = lastFlag C (adopt x u) := by
  unfold lastFlag
  have hf : (fun v => sameBinding v (adopt x u)) = fun v => sameBinding v u :=
    funext fun v => sameBinding_adopt v x u
  rw [hf, List.reverse_cons, List.find?_append]
  cases hc : List.find? (fun v => sameBinding v u) C.reverse with
  | some y => simp
  | none =>
    by_cases hb : sameBinding x u = true
    · simp [adopt, hb, UniformVariable.setPermanent]
    · simp [adopt, hb]

theorem hits_congr (h h2 : Heap) (x : UniformVariable) (u : Nat) (f : UniformVariable → UniformVariable)
    (hf : ∀ y, sameBinding x (f y) = sameBinding x y)
    (hc : h2.cells u = (h.cells u).map f) : hits h2 x u = hits h x u := by
  unfold hits
  rw [hc]
  cases h.cells u with
  | none => rfl
  | some y => simp [hf]

theorem any_hits_congr (h h2 : Heap) (x : UniformVariable) (us : List Nat)
    (hc : ∀ u ∈ us, hits h2 x u = hits h x u) : us.any (hits h2 x) = us.any (hits h x) := by
  induction us with
  | nil => rfl
  | cons u us ih =>
    simp only [List.any_cons]
    rw [hc u (List.mem_cons_self _ _), ih (fun t ht => hc t (List.mem_cons_of_mem _ ht))]

theorem filter_hits_congr (h h2 : Heap) (x : UniformVariable) (us : List Nat)
    (hc : ∀ u ∈ us, hits h2 x u = hits h x u) : us.filter (hits h2 x) = us.filter (hits h x) := by
  induction us with
  | nil => rfl
  | cons u us ih =>
    simp only [List.filter_cons]
    rw [hc u (List.mem_cons_self _ _), ih (fun t ht => hc t (List.mem_cons_of_mem _ ht))]

/-- One round of the outer loop, for a live candidate that is not an active
pointer: the heap, overflow list and signals the next round starts from. -/
theorem merge_step (active : List Nat) (v : Nat) (x : UniformVariable) (vs : List Nat)
    (h : Heap) (perm : List Nat) (out : List ChangeUniform)
    (hlive : ∀ u ∈ active, ∃ uu, h.cells u = some uu)
    (hv : h.cells v = some x) (hnot : v ∉ active) :
    ∃ h1, loadUniforms.merge active (v :: vs) h perm out
        = loadUniforms.merge active vs h1
            (if x.permanent && !active.any (hits h x) then perm ++ [v] else perm)
            (out ++ (active.filter (hits h x)).map (fun u => ⟨u, x.value⟩))
      ∧ h1.brk = h.brk
      ∧ ∀ q, h1.cells q =
          if q ∈ active then (h.cells q).map (adopt x)
          else if q = v then settle h active v else h.cells q := by
  obtain ⟨h1, e1, b1, c1⟩ := scan_spec v x active h false out hv hnot hlive
  have hv1 : h1.cells v = some x := by rw [c1 v]; simp [hnot, hv]
  by_cases hm : active.any (hits h x) = true
  · refine ⟨h1.free v, ?_, by simpa [Heap.free] using b1, ?_⟩
    · simp [loadUniforms.merge, e1, hm]
    · intro q
      by_cases hq : q = v
      · subst hq; simp [Heap.free, hnot, settle, hv, hm]
      · simp [Heap.free, hq, c1 q]
  · by_cases hp : x.permanent = true
    · refine ⟨h1, ?_, b1, ?_⟩
      · simp [loadUniforms.merge, e1, hm, hv1, hp]
      · intro q
        by_cases hq : q = v
        · subst hq; simp [hnot, settle, hv, hm, hp, hv1]
        · simp [hq, c1 q]
    · refine ⟨h1.free v, ?_, by simpa [Heap.free] using b1, ?_⟩
      · simp [loadUniforms.merge, e1, hm, hv1, hp]
      · intro q
        by_cases hq : q = v
        · subst hq; simp [Heap.free, hnot, settle, hv, hp]
        · simp [Heap.free, hq, c1 q]

theorem merge_spec (active : List Nat) (cs : List (Nat × UniformVariable)) :
    ∀ (h : Heap) (perm : List Nat) (out : List ChangeUniform),
      (∀ u ∈ active, ∃ uu, h.cells u = some uu) →
      (∀ c ∈ cs, h.cells c.1 = some c.2) →
      (∀ c ∈ cs, c.1 ∉ active) →
      (cs.map Prod.fst).Nodup →
      ∃ h2, loadUniforms.merge active (cs.map Prod.fst) h perm out
          = some (h2,
              perm ++ (cs.filter (fun c => overflows h active c.2)).map Prod.fst,
              out ++ (cs.map (fun c => signalsFor h active c.2)).flatten)
        ∧ h2.brk = h.brk
        ∧ ∀ q, h2.cells q =
            if q ∈ active then
              (h.cells q).map (fun uu => uu.setPermanent (lastFlag (cs.map Prod.snd) uu))
            else if q ∈ cs.map Prod.fst then settle h active q
            else h.cells q := by
  induction cs with
  | nil =>
    intro h perm out hlive _ _ _
    refine ⟨h, by simp [loadUniforms.merge], rfl, ?_⟩
    intro q
    by_cases hq : q ∈ active
    · obtain ⟨uu, hu⟩ := hlive q hq
      simp [hq, hu, lastFlag, UniformVariable.setPermanent]
    · simp [hq]
  | cons c cs ih =>
    intro h perm out hlive hcs hdis hnd
    obtain ⟨v, x⟩ := c
    have hv : h.cells v = some x := hcs (v, x) (List.mem_cons_self _ _)
    have hnot : v ∉ active := hdis (v, x) (List.mem_cons_self _ _)
    have hnd2 : (cs.map Prod.fst).Nodup := (List.nodup_cons.mp hnd).2
    have hvcs : v ∉ cs.map Prod.fst := (List.nodup_cons.mp hnd).1
    obtain ⟨h1, e1, b1, c1⟩ := merge_step active v x (cs.map Prod.fst) h perm out hlive hv hnot
    have hlive1 : ∀ u ∈ active, ∃ uu, h1.cells u = some uu := by
      intro u hu
      obtain ⟨uu, huu⟩ := hlive u hu
      exact ⟨adopt x uu, by rw [c1 u]; simp [hu, huu]⟩
    have hne : ∀ c ∈ cs, c.1 ≠ v := by
      intro c hc e
      exact hvcs (e ▸ List.mem_map_of_mem Prod.fst hc)
    have hcs1 : ∀ c ∈ cs, h1.cells c.1 = some c.2 := by
      intro c hc
      rw [c1 c.1]
      simp [hdis c (List.mem_cons_of_mem _ hc), hne c hc, hcs c (List.mem_cons_of_mem _ hc)]
    have hhit : ∀ (y : UniformVariable), ∀ u ∈ active, hits h1 y u = hits h y u := by
      intro y u hu
      exact hits_congr h h1 y u (adopt x) (fun z => sameBinding_adopt y x z) (by rw [c1 u]; simp [hu])
    have hov : ∀ y, overflows h1 active y = overflows h active y := by
      intro y; unfold overflows; rw [any_hits_congr h h1 y active (hhit y)]
    have hsig : ∀ y, signalsFor h1 active y = signalsFor h active y := by
      intro y; unfold signalsFor; rw [filter_hits_congr h h1 y active (hhit y)]
    obtain ⟨h2, e2, b2, c2⟩ := ih h1
      (if x.permanent && !active.any (hits h x) then perm ++ [v] else perm)
      (out ++ (active.filter (hits h x)).map (fun u => ⟨u, x.value⟩))
      hlive1 hcs1 (fun c hc => hdis c (List.mem_cons_of_mem _ hc)) hnd2
    refine ⟨h2, ?_, by rw [b2, b1], ?_⟩
    · simp only [List.map_cons]
      rw [e1, e2]
      simp only [hov, hsig, List.filter_cons, List.flatten_cons]
      by_cases ho : overflows h active x = true
      · have ho2 : (x.permanent && !active.any (hits h x)) = true := ho
        simp [ho, ho2, signalsFor]
      · have ho2 : ¬ (x.permanent && !active.any (hits h x)) = true := ho
        simp [ho, ho2, signalsFor]
    · intro q
      rw [c2 q]
      by_cases hq : q ∈ active
      · simp only [hq, if_true, c1 q, Option.map_map]
        congr 1
        funext uu
        simp [Function.comp, setPermanent_adopt, lastFlag_cons]
      · simp only [hq, if_false, List.map_cons, List.mem_cons]
        by_cases hqv : q = v
        · subst hqv
          simp [hvcs, c1 q, hq]
        · simp only [hqv, false_or]
          by_cases hqc : q ∈ cs.map Prod.fst
          · simp only [hqc, if_true]
            unfold settle
            rw [c1 q]
            simp only [hq, hqv, if_false]
            cases h.cells q with
            | none => rfl
            | some y =>
              have := hov y
              unfold overflows at this
              simp only [this]
          · simp [hqc, c1 q, hq, hqv]

theorem foldl_free_brk (ps : List Nat) : ∀ h : Heap, (ps.foldl Heap.free h).brk = h.brk := by
  induction ps with
  | nil => intro h; rfl
  | cons p ps ih => intro h; simp [List.foldl_cons, ih, Heap.free]

theorem foldl_free_cells (ps : List Nat) :
    ∀ (h : Heap) (q : Nat),
      (ps.foldl Heap.free h).cells q = if q ∈ ps then none else h.cells q := by
  induction ps with
  | nil => intro h q; simp
  | cons p ps ih =>
    intro h q
    simp only [List.foldl_cons, ih, List.mem_cons]
    by_cases hq : q ∈ ps
    · simp [hq]
    · by_cases hp : q = p
      · simp [hp, Heap.free]
      · simp [hq, hp, Heap.free]

theorem allocAll_spec (xs : List UniformVariable) :
    ∀ h : Heap,
      (h.allocAll xs).1 = List.range' h.brk xs.length
      ∧ (h.allocAll xs).2.brk = h.brk + xs.length
      ∧ (∀ q, q < h.brk ∨ h.brk + xs.length ≤ q → (h.allocAll xs).2.cells q = h.cells q)
      ∧ ∀ c ∈ (List.range' h.brk xs.length).zip xs, (h.allocAll xs).2.cells c.1 = some c.2 := by
  induction xs with
  | nil => intro h; simp [Heap.allocAll]
  | cons x xs ih =>
    intro h
    obtain ⟨a1, a2, a3, a4⟩ := ih (h.alloc x).2
    have hb : (h.alloc x).2.brk = h.brk + 1 := rfl
    have hp : (h.alloc x).1 = h.brk := rfl
    refine ⟨?_, ?_, ?_, ?_⟩
    · simp only [Heap.allocAll, a1, hb, hp, List.length_cons, List.range'_succ]
    · simp only [Heap.allocAll, a2, hb, List.length_cons]; omega
    · intro q hq
      simp only [Heap.allocAll]
      rw [a3 q (by rw [hb]; simp only [List.length_cons] at hq; omega)]
      have : q ≠ h.brk := by simp only [List.length_cons] at hq; omega
      simp [Heap.alloc, this]
    · intro c hc
      simp only [List.length_cons, List.range'_succ, List.zip_cons_cons, List.mem_cons] at hc
      simp only [Heap.allocAll]
      rcases hc with hc | hc
      · subst hc
        rw [a3 h.brk (by rw [hb]; omega)]
        simp [Heap.alloc]
      · exact a4 c (by rw [hb]; exact hc)

/-- The closed form of a load whose file parses, from a sound registry. -/
theorem loadUniforms_parsed (w : GLWidget) (C : List UniformVariable) (hs : Sound w) :
    ∃ r, loadUniforms w (some C) = some r
      ∧ r.ok = true
      ∧ r.widget.activeUniforms = w.activeUniforms
      ∧ r.widget.s_staticVars = w.s_staticVars
      ∧ r.widget.permUniforms
          = (((candidateAddrs w.heap C.length).zip C).filter
              (fun c => overflows w.heap w.activeUniforms c.2)).map Prod.fst
      ∧ r.emitted = (C.map (signalsFor w.heap w.activeUniforms)).flatten
      ∧ r.widget.heap.brk = w.heap.brk + C.length
      ∧ (∀ q ∈ w.activeUniforms, r.widget.heap.cells q
          = (w.heap.cells q).map (fun uu => uu.setPermanent (lastFlag C uu)))
      ∧ (∀ c ∈ (candidateAddrs w.heap C.length).zip C, r.widget.heap.cells c.1
          = if overflows w.heap w.activeUniforms c.2 then some c.2 else none)
      ∧ (∀ q, q ∉ w.activeUniforms → q < w.heap.brk → r.widget.heap.cells q
          = if q ∈ w.permUniforms then none else w.heap.cells q)
      ∧ (∀ q, w.heap.brk + C.length ≤ q → r.widget.heap.cells q = w.heap.cells q) := by
  obtain ⟨hact, hperm⟩ := hs
  have hb0 : (w.permUniforms.foldl Heap.free w.heap).brk = w.heap.brk := foldl_free_brk _ _
  obtain ⟨a1, a2, a3, a4⟩ := allocAll_spec C (w.permUniforms.foldl Heap.free w.heap)
  rw [hb0] at a1 a2 a3 a4
  have hlen : (List.range' w.heap.brk C.length).length = C.length := List.length_range' _ _ _
  have hfst : ((List.range' w.heap.brk C.length).zip C).map Prod.fst
      = List.range' w.heap.brk C.length := List.map_fst_zip _ _ (by rw [hlen])
  have hsnd : ((List.range' w.heap.brk C.length).zip C).map Prod.snd = C :=
    List.map_snd_zip _ _ (by rw [hlen])
  have hold : ∀ u ∈ w.activeUniforms,
      ((w.permUniforms.foldl Heap.free w.heap).allocAll C).2.cells u = w.heap.cells u := by
    intro u hu
    obtain ⟨_, h2, h3⟩ := hact u hu
    rw [a3 u (Or.inl h2), foldl_free_cells]
    simp [h3]
  have hge : ∀ c ∈ (List.range' w.heap.brk C.length).zip C, w.heap.brk ≤ c.1 := by
    intro c hc
    have : c.1 ∈ List.range' w.heap.brk C.length := by
      rw [← hfst]; exact List.mem_map_of_mem Prod.fst hc
    exact (List.mem_range'_1.mp this).1
  obtain ⟨h2, e2, b2, c2⟩ := merge_spec w.activeUniforms
    ((List.range' w.heap.brk C.length).zip C)
    ((w.permUniforms.foldl Heap.free w.heap).allocAll C).2 [] []
    (by
      intro u hu
      obtain ⟨h1, _, _⟩ := hact u hu
      rw [hold u hu]
      exact Option.isSome_iff_exists.mp h1)
    a4
    (by
      intro c hc hin
      have := hge c hc
      have := (hact c.1 hin).2.1
      omega)
    (by rw [hfst]; exact List.nodup_range' _ _)
  have hhit : ∀ (y : UniformVariable), ∀ u ∈ w.activeUniforms,
      hits ((w.permUniforms.foldl Heap.free w.heap).allocAll C).2 y u = hits w.heap y u := by
    intro y u hu
    exact hits_congr _ _ y u id (fun _ => rfl) (by rw [hold u hu]; simp)
  have hov : ∀ y, overflows ((w.permUniforms.foldl Heap.free w.heap).allocAll C).2
      w.activeUniforms y = overflows w.heap w.activeUniforms y := by
    intro y; unfold overflows; rw [any_hits_congr _ _ y _ (hhit y)]
  have hsig : ∀ y, signalsFor ((w.permUniforms.foldl Heap.free w.heap).allocAll C).2
      w.activeUniforms y = signalsFor w.heap w.activeUniforms y := by
    intro y; unfold signalsFor; rw [filter_hits_congr _ _ y _ (hhit y)]
  rw [hfst] at e2
  have e : loadUniforms w (some C) = some ⟨true, { w with heap := h2, permUniforms :=
      [] ++ (((List.range' w.heap.brk C.length).zip C).filter (fun c => overflows
        ((w.permUniforms.foldl Heap.free w.heap).allocAll C).2 w.activeUniforms c.2)).map Prod.fst },
      [] ++ (((List.range' w.heap.brk C.length).zip C).map (fun c => signalsFor
        ((w.permUniforms.foldl Heap.free w.heap).allocAll C).2 w.activeUniforms c.2)).flatten⟩ := by
    simp only [loadUniforms, loadUniforms.cleared, a1, e2]
  refine ⟨_, e, rfl, rfl, rfl, ?_, ?_, ?_, ?_, ?_, ?_, ?_⟩
  · simp [candidateAddrs, hov]
  · have hm : ((List.range' w.heap.brk C.length).zip C).map
        (fun c => signalsFor w.heap w.activeUniforms c.2)
        = (((List.range' w.heap.brk C.length).zip C).map Prod.snd).map
            (signalsFor w.heap w.activeUniforms) := by
      rw [List.map_map]; rfl
    simp only [List.nil_append, hsig, hm, hsnd]
  · simp [b2, a2]
  · intro q hq
    simp only [c2 q, hq, if_true, hold q hq, hsnd]
  · intro c hc
    have hc2 : c ∈ (List.range' w.heap.brk C.length).zip C := hc
    have hnot : c.1 ∉ w.activeUniforms := by
      intro hin
      have := hge c hc2
      have := (hact c.1 hin).2.1
      omega
    have hin : c.1 ∈ List.range' w.heap.brk C.length := by
      rw [← hfst]; exact List.mem_map_of_mem Prod.fst hc2
    simp only [c2 c.1, hnot, if_false, hfst, hin, if_true, settle, a4 c hc2]
    have := hov c.2
    unfold overflows at this
    simp only [this, overflows]
  · intro q hq hlt
    have hnin : q ∉ List.range' w.heap.brk C.length := by
      intro hin
      have := (List.mem_range'_1.mp hin).1
      omega
    simp only [c2 q, hq, if_false, hfst, hnin, a3 q (Or.inl hlt), foldl_free_cells]

  · intro q hq
    have hnin : q ∉ List.range' w.heap.brk C.length := by
      intro hin
      have := (List.mem_range'_1.mp hin).2
      omega
    have hna : q ∉ w.activeUniforms := by
      intro hin
      have := (hact q hin).2.1
      omega
    have hnp : q ∉ w.permUniforms := by
      intro hin
      have := hperm q hin
      omega
    simp only [c2 q, hna, if_false, hfst, hnin, a3 q (Or.inr hq), foldl_free_cells, hnp]

theorem mem_zip_range' (xs : List UniformVariable) :
    ∀ (s a : Nat) (x : UniformVariable),
      (a, x) ∈ (List.range' s xs.length).zip xs ↔ ∃ i, a = s + i ∧ xs[i]? = some x := by
  induction xs with
  | nil => intro s a x; simp
  | cons y ys ih =>
    intro s a x
    simp only [List.length_cons, List.range'_succ, List.zip_cons_cons, List.mem_cons,
      Prod.mk.injEq, ih]
    constructor
    · rintro (⟨h1, h2⟩ | ⟨i, h1, h2⟩)
      · exact ⟨0, by omega, by simp [h2]⟩
      · exact ⟨i + 1, by omega, by simpa using h2⟩
    · rintro ⟨i, h1, h2⟩
      cases i with
      | zero => left; exact ⟨by omega, by simpa using h2.symm⟩
      | succ j => right; exact ⟨j, by omega, by simpa using h2⟩

theorem lastFlag_skip (C1 C2 : List UniformVariable) (v u : UniformVariable)
    (hv : sameBinding v u = false) : lastFlag (C1 ++ v :: C2) u = lastFlag (C1 ++ C2) u := by
  unfold lastFlag
  simp [List.find?_append, List.find?_cons, hv]

theorem not_hits_of_type_ne (h : Heap) (v uu : UniformVariable) (u : Nat)
    (hu : h.cells u = some uu) (ht : v.type ≠ uu.type) : hits h v u = false := by
  simp [hits, hu, sameBinding, ht]

theorem filter_signalsFor_eq_nil (h : Heap) (active : List Nat) (v : UniformVariable) (u : Nat)
    (hv : hits h v u = false) :
    (signalsFor h active v).filter (fun s => decide (s.uniform = u)) = [] := by
  unfold signalsFor
  rw [List.filter_eq_nil_iff]
  intro s hs
  obtain ⟨t, ht, rfl⟩ := List.mem_map.mp hs
  have h2 := (List.mem_filter.mp ht).2
  simp only [decide_eq_true_eq]
  intro e
  rw [e, hv] at h2
  exact Bool.false_ne_true h2

/-! ## Loading a file that parses -/

/-- C1: after `loadUniforms` on a file that parses to the candidates `C`, the
active set is the same list of the same objects, each with its name and variant
as before, and the permanence flag of each active uniform is the flag of the
last candidate of `C` with its name and variant, or its previous flag when no
candidate matches. -/
theorem loadUniforms_active_flags (w : GLWidget) (C : List UniformVariable) (hs : Sound w) :
    ∃ r, loadUniforms w (some C) = some r ∧ r.ok = true
      ∧ r.widget.activeUniforms = w.activeUniforms
      ∧ ∀ u ∈ w.activeUniforms, ∃ u0 u1,
          w.heap.cells u = some u0 ∧ r.widget.heap.cells u = some u1
          ∧ u1.name = u0.name ∧ u1.type = u0.type
          ∧ u1.permanent = lastFlag C u0 := by
  obtain ⟨r, e, hok, hact, _, _, _, _, hcell, _, _, _⟩ := loadUniforms_parsed w C hs
  refine ⟨r, e, hok, hact, ?_⟩
  intro u hu
  obtain ⟨u0, h0⟩ := Option.isSome_iff_exists.mp (hs.1 u hu).1
  exact ⟨u0, u0.setPermanent (lastFlag C u0), h0, by rw [hcell u hu, h0]; rfl, rfl, rfl, rfl⟩

/-- Witness of C1 on the demo registry and file. -/
theorem loadUniforms_active_flags_witness :
    Sound demoWidget ∧
    ∃ r, loadUniforms demoWidget (some demoFile) = some r ∧ r.ok = true
      ∧ r.widget.activeUniforms = demoWidget.activeUniforms
      ∧ ∀ u ∈ demoWidget.activeUniforms, ∃ u0 u1,
          demoWidget.heap.cells u = some u0 ∧ r.widget.heap.cells u = some u1
          ∧ u1.name = u0.name ∧ u1.type = u0.type
          ∧ u1.permanent = lastFlag demoFile u0 :=
  ⟨by decide, loadUniforms_active_flags demoWidget demoFile (by decide)⟩

/-- C2: after `loadUniforms` on a file that parses to `C`, the overflow list
holds exactly the candidates of `C` that are permanent and match no active
uniform on name and variant, in file order (they sit at the addresses the
parser allocated for them); every entry of the previous overflow list has been
deleted and is not in the new list. -/
theorem loadUniforms_overflow_rebuilt (w : GLWidget) (C : List UniformVariable) (hs : Sound w) :
    ∃ r, loadUniforms w (some C) = some r
      ∧ r.widget.permUniforms.map r.widget.heap.cells
          = (C.filter (fun v => v.permanent && !w.activeUniforms.any (hits w.heap v))).map some
      ∧ r.widget.permUniforms
          = (((candidateAddrs w.heap C.length).zip C).filter
              (fun c => c.2.permanent && !w.activeUniforms.any (hits w.heap c.2))).map Prod.fst
      ∧ ∀ p ∈ w.permUniforms, p ∉ r.widget.permUniforms ∧ r.widget.heap.cells p = none := by
  obtain ⟨r, e, _, _, _, hperm, _, _, _, hcand, hrest, _⟩ := loadUniforms_parsed w C hs
  have hlen : (List.range' w.heap.brk C.length).length = C.length := List.length_range' _ _ _
  have hsnd : ((candidateAddrs w.heap C.length).zip C).map Prod.snd = C :=
    List.map_snd_zip _ _ (by rw [candidateAddrs, hlen])
  refine ⟨r, e, ?_, hperm, ?_⟩
  · rw [hperm, List.map_map]
    have h1 : List.map (r.widget.heap.cells ∘ Prod.fst)
        (((candidateAddrs w.heap C.length).zip C).filter
          (fun c => overflows w.heap w.activeUniforms c.2))
        = List.map (some ∘ Prod.snd)
          (((candidateAddrs w.heap C.length).zip C).filter
            (fun c => overflows w.heap w.activeUniforms c.2)) := by
      apply List.map_congr_left
      intro c hc
      obtain ⟨hc1, hc2⟩ := List.mem_filter.mp hc
      simp only [Function.comp, hcand c hc1, hc2, if_true]
    rw [h1, ← List.map_map]
    congr 1
    have h2 : (fun c : Nat × UniformVariable => overflows w.heap w.activeUniforms c.2)
        = (fun v => overflows w.heap w.activeUniforms v) ∘ Prod.snd := rfl
    rw [h2, ← List.filter_map, hsnd]
    rfl
  · intro p hp
    have hlt : p < w.heap.brk := hs.2 p hp
    have hna : p ∉ w.activeUniforms := fun hin => (hs.1 p hin).2.2 hp
    refine ⟨?_, by rw [hrest p hna hlt]; simp [hp]⟩
    rw [hperm]
    intro hin
    obtain ⟨c, hc, rfl⟩ := List.mem_map.mp hin
    have hcz := (List.mem_filter.mp hc).1
    have : c.1 ∈ List.range' w.heap.brk C.length := by
      have := List.mem_map_of_mem Prod.fst hcz
      rwa [candidateAddrs, List.map_fst_zip _ _ (by rw [hlen])] at this
    have := (List.mem_range'_1.mp this).1
    omega

/-- Witness of C2 on the demo registry and file. -/
theorem loadUniforms_overflow_rebuilt_witness :
    Sound demoWidget ∧
    ∃ r, loadUniforms demoWidget (some demoFile) = some r
      ∧ r.widget.permUniforms.map r.widget.heap.cells
          = (demoFile.filter
              (fun v => v.permanent && !demoWidget.activeUniforms.any (hits demoWidget.heap v))).map some
      ∧ r.widget.permUniforms
          = (((candidateAddrs demoWidget.heap demoFile.length).zip demoFile).filter
              (fun c => c.2.permanent
                && !demoWidget.activeUniforms.any (hits demoWidget.heap c.2))).map Prod.fst
      ∧ ∀ p ∈ demoWidget.permUniforms,
          p ∉ r.widget.permUniforms ∧ r.widget.heap.cells p = none :=
  ⟨by decide, loadUniforms_overflow_rebuilt demoWidget demoFile (by decide)⟩

/-- C3: a successful `loadUniforms` emits, for the candidates in file order and
for each of them the active uniforms in active-set order, one
`changeUniform(u, v->toString())` per pair of a candidate `v` and an active
uniform `u` with the same name and variant, and nothing else; a candidate that
matches nothing contributes no signal. -/
theorem loadUniforms_signals (w : GLWidget) (C : List UniformVariable) (hs : Sound w) :
    ∃ r, loadUniforms w (some C) = some r ∧ r.ok = true
      ∧ r.emitted
          = (C.map (fun v =>
              (w.activeUniforms.filter (hits w.heap v)).map
                (fun u => ChangeUniform.mk u v.value))).flatten := by
  obtain ⟨r, e, hok, _, _, _, hsig, _⟩ := loadUniforms_parsed w C hs
  exact ⟨r, e, hok, hsig⟩

/-- Witness of C3 on the demo registry and file. -/
theorem loadUniforms_signals_witness :
    Sound demoWidget ∧
    ∃ r, loadUniforms demoWidget (some demoFile) = some r ∧ r.ok = true
      ∧ r.emitted
          = (demoFile.map (fun v =>
              (demoWidget.activeUniforms.filter (hits demoWidget.heap v)).map
                (fun u => ChangeUniform.mk u v.value))).flatten :=
  ⟨by decide, loadUniforms_signals demoWidget demoFile (by decide)⟩

theorem hits_false_of_no_match (h : Heap) (active : List Nat) (v : UniformVariable)
    (hno : ∀ u ∈ active, ∀ uu, h.cells u = some uu → ¬ (v.name = uu.name ∧ v.type = uu.type)) :
    ∀ u ∈ active, hits h v u = false := by
  intro u hu
  unfold hits
  cases hc : h.cells u with
  | none => rfl
  | some uu =>
    have := hno u hu uu hc
    simp only [sameBinding, Bool.and_eq_false_iff, decide_eq_false_iff_not]
    tauto

theorem any_hits_false (h : Heap) (active : List Nat) (v : UniformVariable)
    (hno : ∀ u ∈ active, hits h v u = false) : active.any (hits h v) = false := by
  rw [List.any_eq_false]
  intro u hu
  simp [hno u hu]

/-- C4: a candidate of the file that is not permanent and matches no active
uniform on name and variant is, after a successful `loadUniforms`, in neither
collection: the object the parser allocated for it (the `i`-th candidate sits
at address `brk + i`) is deleted and is in neither list, and no entry of either
list holds a uniform equal to it. -/
theorem loadUniforms_discards (w : GLWidget) (C : List UniformVariable) (i : Nat)
    (v : UniformVariable) (hs : Sound w) (hv : C[i]? = some v) (hnp : v.permanent = false)
    (hno : ∀ u ∈ w.activeUniforms, ∀ uu, w.heap.cells u = some uu →
      ¬ (v.name = uu.name ∧ v.type = uu.type)) :
    ∃ r, loadUniforms w (some C) = some r ∧ r.ok = true
      ∧ (w.heap.brk + i) ∉ r.widget.activeUniforms
      ∧ (w.heap.brk + i) ∉ r.widget.permUniforms
      ∧ r.widget.heap.cells (w.heap.brk + i) = none
      ∧ (∀ p ∈ r.widget.activeUniforms, r.widget.heap.cells p ≠ some v)
      ∧ ∀ p ∈ r.widget.permUniforms, r.widget.heap.cells p ≠ some v := by
  obtain ⟨r, e, hok, hact, _, hperm, _, _, hcell, hcand, _, _⟩ := loadUniforms_parsed w C hs
  have hov : overflows w.heap w.activeUniforms v = false := by simp [overflows, hnp]
  have hmem : (w.heap.brk + i, v) ∈ (candidateAddrs w.heap C.length).zip C :=
    (mem_zip_range' C w.heap.brk (w.heap.brk + i) v).mpr ⟨i, rfl, hv⟩
  refine ⟨r, e, hok, ?_, ?_, ?_, ?_, ?_⟩
  · rw [hact]
    intro hin
    have := (hs.1 _ hin).2.1
    omega
  · rw [hperm]
    intro hin
    obtain ⟨c, hc, hc1⟩ := List.mem_map.mp hin
    obtain ⟨hcz, hco⟩ := List.mem_filter.mp hc
    obtain ⟨j, hj1, hj2⟩ := (mem_zip_range' C w.heap.brk c.1 c.2).mp hcz
    have hji : j = i := by omega
    rw [hji, hv] at hj2
    rw [← Option.some.inj hj2, hov] at hco
    exact Bool.false_ne_true hco
  · have := hcand _ hmem
    simpa [hov] using this
  · intro p hp hpv
    rw [hact] at hp
    rw [hcell p hp] at hpv
    obtain ⟨uu, huu⟩ := Option.isSome_iff_exists.mp (hs.1 p hp).1
    rw [huu] at hpv
    have hvv : uu.setPermanent (lastFlag C uu) = v := Option.some.inj hpv
    apply hno p hp uu huu
    rw [← hvv]
    exact ⟨rfl, rfl⟩
  · intro p hp hpv
    rw [hperm] at hp
    obtain ⟨c, hc, rfl⟩ := List.mem_map.mp hp
    obtain ⟨hcz, hco⟩ := List.mem_filter.mp hc
    rw [hcand c hcz, hco] at hpv
    have hcv : c.2 = v := Option.some.inj hpv
    rw [hcv, hov] at hco
    exact Bool.false_ne_true hco

/-- Witness of C4: the candidate `fog` of the demo file. -/
theorem loadUniforms_discards_witness :
    Sound demoWidget ∧
    ∃ r, loadUniforms demoWidget (some demoFile) = some r ∧ r.ok = true
      ∧ (demoWidget.heap.brk + 2) ∉ r.widget.activeUniforms
      ∧ (demoWidget.heap.brk + 2) ∉ r.widget.permUniforms
      ∧ r.widget.heap.cells (demoWidget.heap.brk + 2) = none
      ∧ (∀ p ∈ r.widget.activeUniforms,
          r.widget.heap.cells p ≠ some ⟨"fog", UniformType.TYPE_FLOAT, false, "0.5"⟩)
      ∧ ∀ p ∈ r.widget.permUniforms,
          r.widget.heap.cells p ≠ some ⟨"fog", UniformType.TYPE_FLOAT, false, "0.5"⟩ :=
  ⟨by decide,
    loadUniforms_discards demoWidget demoFile 2 ⟨"fog", UniformType.TYPE_FLOAT, false, "0.5"⟩
      (by decide) (by decide) (by decide) (by decide)⟩

/-- C5: `loadUniforms` matches a candidate with an active uniform exactly when
name and variant are both equal.  A candidate `v` of the file whose name is
that of the active uniform `u` but whose variant differs leaves `u`'s flag as
the load of the file without `v` leaves it, adds no `changeUniform` for `u`, and
is put on the overflow list exactly when it is permanent and no active uniform
has its name and variant. -/
theorem loadUniforms_name_and_variant (w : GLWidget) (C1 C2 : List UniformVariable)
    (v : UniformVariable) (u : Nat) (uu : UniformVariable) (hs : Sound w)
    (hu : u ∈ w.activeUniforms) (huu : w.heap.cells u = some uu)
    (hname : v.name = uu.name) (htype : v.type ≠ uu.type) :
    (∀ a b : UniformVariable, sameBinding a b = true ↔ a.name = b.name ∧ a.type = b.type)
    ∧ ∃ r r0, loadUniforms w (some (C1 ++ v :: C2)) = some r
      ∧ loadUniforms w (some (C1 ++ C2)) = some r0
      ∧ r.widget.heap.cells u = r0.widget.heap.cells u
      ∧ r.emitted.filter (fun s => decide (s.uniform = u))
          = r0.emitted.filter (fun s => decide (s.uniform = u))
      ∧ ((w.heap.brk + C1.length) ∈ r.widget.permUniforms ↔
          (v.permanent = true ∧ ∀ t ∈ w.activeUniforms, ∀ tt, w.heap.cells t = some tt →
            ¬ (v.name = tt.name ∧ v.type = tt.type))) := by
  have hname' := hname
  refine ⟨fun a b => by simp [sameBinding], ?_⟩
  obtain ⟨r, e, _, _, _, hperm, hsig, _, hcell, _, _, _⟩ :=
    loadUniforms_parsed w (C1 ++ v :: C2) hs
  obtain ⟨r0, e0, _, _, _, _, hsig0, _, hcell0, _, _, _⟩ := loadUniforms_parsed w (C1 ++ C2) hs
  have hvu : sameBinding v uu = false := by simp [sameBinding, htype]
  have hhit : hits w.heap v u = false := not_hits_of_type_ne w.heap v uu u huu htype
  refine ⟨r, r0, e, e0, ?_, ?_, ?_⟩
  · rw [hcell u hu, hcell0 u hu, huu]
    simp [lastFlag_skip C1 C2 v uu hvu]
  · rw [hsig, hsig0]
    simp only [List.map_append, List.map_cons, List.flatten_append, List.flatten_cons,
      List.filter_append, filter_signalsFor_eq_nil w.heap w.activeUniforms v u hhit,
      List.nil_append]
  · have hvi : (C1 ++ v :: C2)[C1.length]? = some v := by
      rw [List.getElem?_append_right (Nat.le_refl _)]; simp
    rw [hperm]
    constructor
    · intro hin
      obtain ⟨c, hc, hc1⟩ := List.mem_map.mp hin
      obtain ⟨hcz, hco⟩ := List.mem_filter.mp hc
      obtain ⟨j, hj1, hj2⟩ := (mem_zip_range' (C1 ++ v :: C2) w.heap.brk c.1 c.2).mp hcz
      have hji : j = C1.length := by omega
      rw [hji, hvi] at hj2
      rw [← Option.some.inj hj2] at hco
      simp only [overflows, Bool.and_eq_true, Bool.not_eq_true', List.any_eq_false] at hco
      refine ⟨hco.1, ?_⟩
      intro t ht tt htt hk
      have := hco.2 t ht
      simp [hits, htt, sameBinding, hk.1, hk.2] at this
    · rintro ⟨hp, hno⟩
      have hov : overflows w.heap w.activeUniforms v = true := by
        simp only [overflows, hp, Bool.true_and, Bool.not_eq_true']
        exact any_hits_false _ _ _ (hits_false_of_no_match _ _ _ hno)
      exact List.mem_map.mpr ⟨(w.heap.brk + C1.length, v),
        List.mem_filter.mpr ⟨(mem_zip_range' _ _ _ _).mpr ⟨C1.length, rfl, hvi⟩, hov⟩, rfl⟩

/-- Witness of C5: the second candidate of the demo file reuses the name `color`
with the type of a scalar. -/
theorem loadUniforms_name_and_variant_witness :
    (∀ a b : UniformVariable, sameBinding a b = true ↔ a.name = b.name ∧ a.type = b.type)
    ∧ ∃ r r0,
      loadUniforms demoWidget (some ([⟨"color", UniformType.TYPE_FLOAT3, true, "0,1,0"⟩]
        ++ ⟨"color", UniformType.TYPE_FLOAT, true, "5"⟩
          :: [⟨"fog", UniformType.TYPE_FLOAT, false, "0.5"⟩])) = some r
      ∧ loadUniforms demoWidget (some ([⟨"color", UniformType.TYPE_FLOAT3, true, "0,1,0"⟩]
        ++ [⟨"fog", UniformType.TYPE_FLOAT, false, "0.5"⟩])) = some r0
      ∧ r.widget.heap.cells 0 = r0.widget.heap.cells 0
      ∧ r.emitted.filter (fun s => decide (s.uniform = 0))
          = r0.emitted.filter (fun s => decide (s.uniform = 0))
      ∧ ((demoWidget.heap.brk
            + [(⟨"color", UniformType.TYPE_FLOAT3, true, "0,1,0"⟩ : UniformVariable)].length)
          ∈ r.widget.permUniforms ↔
          ((⟨"color", UniformType.TYPE_FLOAT, true, "5"⟩ : UniformVariable).permanent = true
            ∧ ∀ t ∈ demoWidget.activeUniforms, ∀ tt, demoWidget.heap.cells t = some tt →
              ¬ ((⟨"color", UniformType.TYPE_FLOAT, true, "5"⟩ : UniformVariable).name = tt.name
                ∧ (⟨"color", UniformType.TYPE_FLOAT, true, "5"⟩ : UniformVariable).type
                  = tt.type))) :=
  loadUniforms_name_and_variant demoWidget [⟨"color", UniformType.TYPE_FLOAT3, true, "0,1,0"⟩]
    [⟨"fog", UniformType.TYPE_FLOAT, false, "0.5"⟩] ⟨"color", UniformType.TYPE_FLOAT, true, "5"⟩
    0 ⟨"color", UniformType.TYPE_FLOAT3, false, "1,0,0"⟩
    (by decide) (by decide) (by decide) (by decide) (by decide)

/-! ## A file that does not parse -/

/-- C6, as stated, fails: when `VarsFile::load` returns false the overflow list
of the demo registry, which held the uniform `stale`, is empty afterwards and
the object is deleted. -/
theorem loadUniforms_failed_counterexample :
    ∃ r, loadUniforms demoWidget none = some r ∧ r.ok = false
      ∧ demoWidget.permUniforms = [2]
      ∧ demoWidget.heap.cells 2 = some ⟨"stale", UniformType.TYPE_FLOAT, true, "3"⟩
      ∧ r.widget.permUniforms = []
      ∧ r.widget.permUniforms ≠ demoWidget.permUniforms
      ∧ r.widget.heap.cells 2 = none :=
  ⟨_, rfl, rfl, rfl, rfl, rfl, by decide, rfl⟩

/-- C6, amended: when `VarsFile::load` returns false, `loadUniforms` returns false
and emits no `changeUniform`; the active list and every active object (flags
included) are as before the call; the overflow list has been emptied and its
former entries deleted, since that is done before the file is read. -/
theorem loadUniforms_failed (w : GLWidget) (hs : Sound w) :
    ∃ r, loadUniforms w none = some r ∧ r.ok = false ∧ r.emitted = []
      ∧ r.widget.activeUniforms = w.activeUniforms
      ∧ (∀ u ∈ w.activeUniforms, r.widget.heap.cells u = w.heap.cells u)
      ∧ r.widget.s_staticVars = w.s_staticVars
      ∧ r.widget.permUniforms = []
      ∧ (∀ p ∈ w.permUniforms, r.widget.heap.cells p = none)
      ∧ ∀ q, q ∉ w.permUniforms → r.widget.heap.cells q = w.heap.cells q := by
  refine ⟨_, rfl, rfl, rfl, rfl, ?_, rfl, rfl, ?_, ?_⟩
  · intro u hu
    show (w.permUniforms.foldl Heap.free w.heap).cells u = _
    rw [foldl_free_cells]
    simp [(hs.1 u hu).2.2]
  · intro p hp
    show (w.permUniforms.foldl Heap.free w.heap).cells p = _
    rw [foldl_free_cells]
    simp [hp]
  · intro q hq
    show (w.permUniforms.foldl Heap.free w.heap).cells q = _
    rw [foldl_free_cells]
    simp [hq]

/-- Witness of the amended C6 on the demo registry. -/
theorem loadUniforms_failed_witness :
    Sound demoWidget ∧
    ∃ r, loadUniforms demoWidget none = some r ∧ r.ok = false ∧ r.emitted = []
      ∧ r.widget.activeUniforms = demoWidget.activeUniforms
      ∧ (∀ u ∈ demoWidget.activeUniforms, r.widget.heap.cells u = demoWidget.heap.cells u)
      ∧ r.widget.s_staticVars = demoWidget.s_staticVars
      ∧ r.widget.permUniforms = []
      ∧ (∀ p ∈ demoWidget.permUniforms, r.widget.heap.cells p = none)
      ∧ ∀ q, q ∉ demoWidget.permUniforms → r.widget.heap.cells q = demoWidget.heap.cells q :=
  ⟨by decide, loadUniforms_failed demoWidget (by decide)⟩

/-! ## Shader swap -/

theorem foldl_uniformAdded (xs : List Nat) :
    ∀ w : GLWidget,
      (xs.foldl uniformAdded w).heap = w.heap
      ∧ (xs.foldl uniformAdded w).permUniforms = w.permUniforms
      ∧ (xs.foldl uniformAdded w).s_staticVars = w.s_staticVars
      ∧ (xs.foldl uniformAdded w).activeUniforms = w.activeUniforms ++ xs := by
  induction xs with
  | nil => intro w; simp
  | cons x xs ih =>
    intro w
    obtain ⟨h1, h2, h3, h4⟩ := ih (uniformAdded w x)
    simp only [List.foldl_cons]
    exact ⟨h1, h2, h3, by rw [h4]; simp [uniformAdded]⟩

theorem mem_introspect (tf : Nat → UniformType) (reported : List ActiveUniform)
    (a : ActiveUniform) (ha : a ∈ reported) (hgl : startsWith a.name "gl_" = false) :
    (⟨tf a.type, a.name, true, a.arraySize⟩ : AddUniform) ∈ loadShader.introspect tf reported := by
  induction reported with
  | nil => simp at ha
  | cons b rest ih =>
    rcases List.mem_cons.mp ha with rfl | hin
    · simp [loadShader.introspect, hgl]
    · unfold loadShader.introspect
      split
      · exact ih hin
      · exact List.mem_cons_of_mem _ (ih hin)

/-- C7, as stated, fails: a load into an empty registry leaves the permanent
uniform `tint` on the overflow list; `loadShader` on a program that exposes a
3-vector `tint` announces it with `addUniform`, yet afterwards `tint` is still on
the overflow list and the active list is still empty. -/
theorem loadShader_recovers_counterexample :
    ∃ r, loadUniforms (GLWidget.ctor (Heap.ofList [])) (some [tint]) = some r
      ∧ r.widget.permUniforms = [0] ∧ r.widget.heap.cells 0 = some tint
      ∧ (loadShader demoTypeFromGLEnum r.widget (some [⟨"tint", 1, 35665⟩])).ok = true
      ∧ (loadShader demoTypeFromGLEnum r.widget (some [⟨"tint", 1, 35665⟩])).emitted
          = [⟨UniformType.TYPE_FLOAT3, "tint", true, 1⟩]
      ∧ 0 ∈ (loadShader demoTypeFromGLEnum r.widget (some [⟨"tint", 1, 35665⟩])).widget.permUniforms
      ∧ (loadShader demoTypeFromGLEnum r.widget
          (some [⟨"tint", 1, 35665⟩])).widget.activeUniforms = [] :=
  ⟨_, rfl, rfl, rfl, rfl, by decide, by decide, rfl⟩

/-- C7, amended: when a permanent uniform `x` sits on the overflow list and
`loadShader` introspects a program that exposes a uniform with `x`'s name and
variant (the name not starting with "gl_"), `loadShader` emits an `addUniform`
with that variant and name and leaves the registry as it was; `x` stays on the
overflow list with its saved payload, also after the `uniformAdded` calls that
follow, which only append the pointers they are given to the active list. -/
theorem loadShader_keeps_overflow (tf : Nat → UniformType) (w : GLWidget) (u : Nat)
    (x : UniformVariable) (reported : List ActiveUniform) (a : ActiveUniform)
    (hu : u ∈ w.permUniforms) (hx : w.heap.cells u = some x)
    (ha : a ∈ reported) (hname : a.name = x.name) (htype : tf a.type = x.type)
    (hgl : startsWith x.name "gl_" = false) :
    (loadShader tf w (some reported)).ok = true
    ∧ (⟨x.type, x.name, true, a.arraySize⟩ : AddUniform) ∈ (loadShader tf w (some reported)).emitted
    ∧ (loadShader tf w (some reported)).widget = w
    ∧ ∀ added : List Nat,
        u ∈ (added.foldl uniformAdded (loadShader tf w (some reported)).widget).permUniforms
        ∧ (added.foldl uniformAdded (loadShader tf w (some reported)).widget).permUniforms
            = w.permUniforms
        ∧ (added.foldl uniformAdded (loadShader tf w (some reported)).widget).heap.cells u = some x
        ∧ (added.foldl uniformAdded (loadShader tf w (some reported)).widget).activeUniforms
            = w.activeUniforms ++ added := by
  refine ⟨rfl, ?_, rfl, ?_⟩
  · have := mem_introspect tf reported a ha (by rw [hname]; exact hgl)
    rw [hname, htype] at this
    exact this
  · intro added
    obtain ⟨h1, h2, _, h4⟩ := foldl_uniformAdded added w
    exact ⟨by rw [show (loadShader tf w (some reported)).widget = w from rfl, h2]; exact hu,
      h2, by rw [show (loadShader tf w (some reported)).widget = w from rfl, h1]; exact hx, h4⟩

/-- Witness of the amended C7: the overflow entry `stale` of the demo registry
and a program that exposes a scalar `stale`. -/
theorem loadShader_keeps_overflow_witness :
    (loadShader demoTypeFromGLEnum demoWidget (some [⟨"stale", 1, 5126⟩])).ok = true
    ∧ (⟨UniformType.TYPE_FLOAT, "stale", true, 1⟩ : AddUniform)
        ∈ (loadShader demoTypeFromGLEnum demoWidget (some [⟨"stale", 1, 5126⟩])).emitted
    ∧ (loadShader demoTypeFromGLEnum demoWidget (some [⟨"stale", 1, 5126⟩])).widget = demoWidget
    ∧ ∀ added : List Nat,
        2 ∈ (added.foldl uniformAdded
          (loadShader demoTypeFromGLEnum demoWidget (some [⟨"stale", 1, 5126⟩])).widget).permUniforms
        ∧ (added.foldl uniformAdded
          (loadShader demoTypeFromGLEnum demoWidget (some [⟨"stale", 1, 5126⟩])).widget).permUniforms
            = demoWidget.permUniforms
        ∧ (added.foldl uniformAdded
          (loadShader demoTypeFromGLEnum demoWidget (some [⟨"stale", 1, 5126⟩])).widget).heap.cells 2
            = some ⟨"stale", UniformType.TYPE_FLOAT, true, "3"⟩
        ∧ (added.foldl uniformAdded
          (loadShader demoTypeFromGLEnum demoWidget (some [⟨"stale", 1, 5126⟩])).widget).activeUniforms
            = demoWidget.activeUniforms ++ added :=
  loadShader_keeps_overflow demoTypeFromGLEnum demoWidget 2
    ⟨"stale", UniformType.TYPE_FLOAT, true, "3"⟩ [⟨"stale", 1, 5126⟩] ⟨"stale", 1, 5126⟩
    (by decide) (by decide) (by decide) (by decide) (by decide) (by decide)

/-! ## Deletion -/

theorem removeAll_eq_filter (l : List Nat) (t : Nat) :
    removeAll l t = l.filter (fun v => decide (v ≠ t)) := by
  induction l with
  | nil => rfl
  | cons y ys ih =>
    by_cases h : y = t
    · simp [removeAll, h, ih]
    · simp [removeAll, h, ih]

theorem sweep_some (x : Nat) (l : List Nat) :
    ∀ h h2 : Heap, uniformDeleted.sweep x l h = some h2 →
      h2.brk = h.brk ∧ ∀ q, h2.cells q = if q = x ∧ x ∈ l then none else h.cells q := by
  induction l with
  | nil =>
    intro h h2 e
    have : h = h2 := Option.some.inj e
    subst this
    exact ⟨rfl, fun q => by simp⟩
  | cons y ys ih =>
    intro h h2 e
    by_cases hxy : x = y
    · subst hxy
      cases hc : h.cells x with
      | none => simp [uniformDeleted.sweep, Heap.delete, hc] at e
      | some obj =>
        have e2 : uniformDeleted.sweep x ys (h.free x) = some h2 := by
          simpa [uniformDeleted.sweep, Heap.delete, hc] using e
        obtain ⟨b1, c1⟩ := ih (h.free x) h2 e2
        refine ⟨b1, ?_⟩
        intro q
        rw [c1 q]
        by_cases hq : q = x
        · subst hq; simp [Heap.free]
        · simp [hq, Heap.free]
    · have e2 : uniformDeleted.sweep x ys h = some h2 := by
        simpa [uniformDeleted.sweep, hxy] using e
      obtain ⟨b1, c1⟩ := ih h h2 e2
      refine ⟨b1, ?_⟩
      intro q
      rw [c1 q]
      by_cases hq : q = x
      · subst hq; simp [hxy]
      · simp [hq]

theorem sweep_absent (x : Nat) (l : List Nat) (hx : x ∉ l) :
    ∀ h : Heap, uniformDeleted.sweep x l h = some h := by
  induction l with
  | nil => intro h; rfl
  | cons y ys ih =>
    intro h
    have hxy : x ≠ y := fun e => hx (e ▸ List.mem_cons_self _ _)
    simp only [uniformDeleted.sweep, hxy, if_false]
    exact ih (fun hin => hx (List.mem_cons_of_mem _ hin)) h

theorem sweep_once (x : Nat) (l : List Nat) :
    ∀ h : Heap, l.count x ≤ 1 → (x ∈ l → (h.cells x).isSome = true) →
      ∃ h2, uniformDeleted.sweep x l h = some h2 := by
  induction l with
  | nil => intro h _ _; exact ⟨h, rfl⟩
  | cons y ys ih =>
    intro h hc hl
    by_cases hxy : x = y
    · subst hxy
      obtain ⟨obj, hobj⟩ := Option.isSome_iff_exists.mp (hl (List.mem_cons_self _ _))
      have hnot : x ∉ ys := by
        intro hin
        have : 0 < ys.count x := List.count_pos_iff.mpr hin
        rw [List.count_cons_self] at hc
        omega
      exact ⟨h.free x, by
        simp only [uniformDeleted.sweep, Heap.delete, hobj, if_true]
        exact sweep_absent x ys hnot _⟩
    · have hc2 : ys.count x ≤ 1 := by
        rw [List.count_cons_of_ne hxy] at hc
        exact hc
      obtain ⟨h2, e2⟩ := ih h hc2 (fun hin => hl (List.mem_cons_of_mem _ hin))
      exact ⟨h2, by simp only [uniformDeleted.sweep, hxy, if_false]; exact e2⟩

theorem removeAll_absent (l : List Nat) (x : Nat) (hx : x ∉ l) : removeAll l x = l := by
  rw [removeAll_eq_filter, List.filter_eq_self]
  intro a ha
  simp only [ne_eq, decide_not, Bool.not_eq_true', decide_eq_false_iff_not]
  intro e
  exact hx (e ▸ ha)

/-- C8: the nine uniforms that `initializeGL` creates (skybox, model,
projection, view, mvp, time, size, mouse, normalMap, in this order) are the
ones it pushes onto `s_staticVars`, and for every member `b` of that list, in
every registry state `w` with that static list, `uniformDeleted(b)` changes
nothing: the static list, the active list, the overflow list and all objects
are as before, whether or not `b` is an active pointer. -/
theorem uniformDeleted_builtin (blank : UniformVariable) (w0 w : GLWidget) (b : Nat)
    (hb : b ∈ (initializeGL blank w0).s_staticVars)
    (hw : w.s_staticVars = (initializeGL blank w0).s_staticVars) :
    uniformDeleted w b = some w
    ∧ (initializeGL blank w0).s_staticVars = w0.s_staticVars ++ List.range' w0.heap.brk 9
    ∧ (List.range' w0.heap.brk 9).map
        (fun p => ((initializeGL blank w0).heap.cells p).map (fun x => (x.name, x.type)))
      = [some ("skybox", UniformType.TYPE_TEXCUBE), some ("model", UniformType.TYPE_MAT4),
          some ("projection", UniformType.TYPE_MAT4), some ("view", UniformType.TYPE_MAT4),
          some ("mvp", UniformType.TYPE_MAT4), some ("time", UniformType.TYPE_TIME),
          some ("size", UniformType.TYPE_FLOAT2), some ("mouse", UniformType.TYPE_FLOAT3),
          some ("normalMap", UniformType.TYPE_TEX2D)] := by
  refine ⟨?_, ?_, ?_⟩
  · have hany : w.s_staticVars.any (fun sv => decide (b = sv)) = true := by
      rw [hw, List.any_eq_true]
      exact ⟨b, hb, by simp⟩
    simp [uniformDeleted, hany]
  · simp [initializeGL, Heap.alloc, List.range']
  · simp [initializeGL, Heap.alloc, List.range', Nat.add_assoc]

/-- Witness of C8: `time`, the sixth built-in, which is also made active. -/
theorem uniformDeleted_builtin_witness :
    uniformDeleted (uniformAdded (initializeGL demoBlank (GLWidget.ctor (Heap.ofList []))) 5) 5
      = some (uniformAdded (initializeGL demoBlank (GLWidget.ctor (Heap.ofList []))) 5)
    ∧ (initializeGL demoBlank (GLWidget.ctor (Heap.ofList []))).s_staticVars
      = (GLWidget.ctor (Heap.ofList [])).s_staticVars
          ++ List.range' (GLWidget.ctor (Heap.ofList [])).heap.brk 9
    ∧ (List.range' (GLWidget.ctor (Heap.ofList [])).heap.brk 9).map
        (fun p => ((initializeGL demoBlank (GLWidget.ctor (Heap.ofList []))).heap.cells p).map
          (fun x => (x.name, x.type)))
      = [some ("skybox", UniformType.TYPE_TEXCUBE), some ("model", UniformType.TYPE_MAT4),
          some ("projection", UniformType.TYPE_MAT4), some ("view", UniformType.TYPE_MAT4),
          some ("mvp", UniformType.TYPE_MAT4), some ("time", UniformType.TYPE_TIME),
          some ("size", UniformType.TYPE_FLOAT2), some ("mouse", UniformType.TYPE_FLOAT3),
          some ("normalMap", UniformType.TYPE_TEX2D)] :=
  uniformDeleted_builtin demoBlank (GLWidget.ctor (Heap.ofList []))
    (uniformAdded (initializeGL demoBlank (GLWidget.ctor (Heap.ofList []))) 5) 5
    (by decide) (by decide)

/-- Where the deletion is defined: for a uniform `x` that is not in the static
list, that occurs at most once in the active list and, when it occurs, has an
object behind it, `uniformDeleted(x)` leaves as active list the previous one
without `x`, the other entries in their order; the overflow list, the static
list and all objects other than `x` are as before; when `x` is not an active
pointer the call changes nothing at all. -/
theorem uniformDeleted_removes (w : GLWidget) (x : Nat) (hx : x ∉ w.s_staticVars)
    (honce : w.activeUniforms.count x ≤ 1)
    (hlive : x ∈ w.activeUniforms → (w.heap.cells x).isSome = true) :
    ∃ w2, uniformDeleted w x = some w2
      ∧ w2.activeUniforms = w.activeUniforms.filter (fun v => decide (v ≠ x))
      ∧ x ∉ w2.activeUniforms
      ∧ w2.permUniforms = w.permUniforms
      ∧ w2.s_staticVars = w.s_staticVars
      ∧ (∀ q, q ≠ x → w2.heap.cells q = w.heap.cells q)
      ∧ (x ∉ w.activeUniforms → w2 = w) := by
  have hany : w.s_staticVars.any (fun sv => decide (x = sv)) = false := by
    rw [List.any_eq_false]
    intro sv hsv
    simp only [decide_eq_true_eq]
    intro e
    exact hx (e ▸ hsv)
  obtain ⟨h2, e2⟩ := sweep_once x w.activeUniforms w.heap honce hlive
  obtain ⟨_, c2⟩ := sweep_some x w.activeUniforms w.heap h2 e2
  refine ⟨{ w with heap := h2, activeUniforms := removeAll w.activeUniforms x }, ?_,
    removeAll_eq_filter _ _, ?_, rfl, rfl, ?_, ?_⟩
  · simp only [uniformDeleted, hany, Bool.false_eq_true, if_false, e2]
  · show x ∉ removeAll w.activeUniforms x
    rw [removeAll_eq_filter]
    intro hin
    have := (List.mem_filter.mp hin).2
    simp at this
  · intro q hq
    show h2.cells q = _
    rw [c2 q]
    simp [hq]
  · intro hna
    have e3 := sweep_absent x w.activeUniforms hna w.heap
    have : h2 = w.heap := Option.some.inj (e2.symm.trans e3)
    rw [this, removeAll_absent _ _ hna]

/-- C9 fails on the code: after `uniformAdded(color)` on the demo registry the
active list is `[color, shininess, color]`; `color` is not a built-in, so
`uniformDeleted(color)` runs `delete v` at the first position, which succeeds,
and again at the third, where no object is left: the call has no defined
result, where the claim has the active list become `[shininess]`. -/
theorem uniformDeleted_double_delete :
    (uniformAdded demoWidget 0).activeUniforms = [0, 1, 0]
    ∧ 0 ∉ (uniformAdded demoWidget 0).s_staticVars
    ∧ (uniformAdded demoWidget 0).activeUniforms.filter (fun v => decide (v ≠ 0)) = [1]
    ∧ ((uniformAdded demoWidget 0).heap.delete 0).isSome = true
    ∧ ((uniformAdded demoWidget 0).heap.free 0).delete 0 = none
    ∧ uniformDeleted (uniformAdded demoWidget 0) 0 = none :=
  ⟨rfl, by decide, by decide, rfl, rfl, rfl⟩

/-! ## One binding per name and variant -/

theorem maintained_added (w : GLWidget) (x : Nat) (hm : Maintained w) (hf : FreshBinding w x) :
    Maintained (uniformAdded w x) := by
  obtain ⟨h1, ⟨hact, hperm⟩, hk⟩ := hm
  obtain ⟨hxp, xx, hxx, hfresh⟩ := hf
  refine ⟨h1, ⟨?_, hperm⟩, ?_⟩
  · intro u hu
    rcases List.mem_append.mp hu with hin | hin
    · exact hact u hin
    · have hux : u = x := by simpa using hin
      subst hux
      refine ⟨by simp [uniformAdded, hxx], ?_, hxp⟩
      by_contra hge
      have := h1 u (Nat.le_of_not_lt hge)
      rw [hxx] at this
      exact Option.noConfusion this
  · unfold OneBindingEach activeKeys
    simp only [uniformAdded, List.map_append, List.map_cons, List.map_nil, hxx, Option.map_some']
    rw [List.nodup_append]
    refine ⟨hk, List.nodup_singleton _, ?_⟩
    intro a ha hb
    have : a = some (xx.name, xx.type) := by simpa using hb
    rw [this] at ha
    exact hfresh ha

theorem maintained_deleted (w w2 : GLWidget) (x : Nat) (hm : Maintained w)
    (e : uniformDeleted w x = some w2) : Maintained w2 := by
  obtain ⟨h1, ⟨hact, hperm⟩, hk⟩ := hm
  by_cases hany0 : w.s_staticVars.any (fun sv => decide (x = sv)) = true
  · have : w = w2 := by
      simp only [uniformDeleted, hany0, if_true] at e
      exact Option.some.inj e
    subst this
    exact ⟨h1, ⟨hact, hperm⟩, hk⟩
  · have hany : w.s_staticVars.any (fun sv => decide (x = sv)) = false :=
      Bool.eq_false_iff.mpr hany0
    cases hsw : uniformDeleted.sweep x w.activeUniforms w.heap with
    | none => simp [uniformDeleted, hany, hsw] at e
    | some h2 =>
      have hw2 : w2 = { w with heap := h2, activeUniforms := removeAll w.activeUniforms x } := by
        simp only [uniformDeleted, hany, Bool.false_eq_true, if_false, hsw] at e
        exact (Option.some.inj e).symm
      subst hw2
      obtain ⟨hbrk, hcell⟩ := sweep_some x w.activeUniforms w.heap h2 hsw
      have hmem : ∀ u ∈ removeAll w.activeUniforms x, u ∈ w.activeUniforms ∧ u ≠ x := by
        intro u hu
        rw [removeAll_eq_filter] at hu
        obtain ⟨hu1, hu2⟩ := List.mem_filter.mp hu
        exact ⟨hu1, by simpa using hu2⟩
      refine ⟨?_, ⟨?_, ?_⟩, ?_⟩
      · intro q hq
        show h2.cells q = none
        have hq2 : w.heap.brk ≤ q := by
          have : h2.brk ≤ q := hq
          rwa [hbrk] at this
        rw [hcell q]
        split
        · rfl
        · exact h1 q hq2
      · intro u hu
        obtain ⟨hu1, hu2⟩ := hmem u hu
        obtain ⟨a1, a2, a3⟩ := hact u hu1
        refine ⟨?_, ?_, a3⟩
        · show (h2.cells u).isSome = true
          rw [hcell u]
          simp [hu2, a1]
        · show u < h2.brk
          rw [hbrk]; exact a2
      · intro p hp
        show p < h2.brk
        rw [hbrk]
        exact hperm p hp
      · unfold OneBindingEach activeKeys
        show ((removeAll w.activeUniforms x).map
          (fun u => (h2.cells u).map (fun y => (y.name, y.type)))).Nodup
        have hcongr : (removeAll w.activeUniforms x).map
              (fun u => (h2.cells u).map (fun y => (y.name, y.type)))
            = (removeAll w.activeUniforms x).map
              (fun u => (w.heap.cells u).map (fun y => (y.name, y.type))) := by
          apply List.map_congr_left
          intro u hu
          rw [hcell u]
          simp [(hmem u hu).2]
        rw [hcongr, removeAll_eq_filter]
        exact List.Nodup.sublist (List.Sublist.map _ (List.filter_sublist _)) hk

/-- In a maintained state every `uniformDeleted` call is defined: active pointers
are live and none occurs twice. -/
theorem maintained_deleted_defined (w : GLWidget) (x : Nat) (hm : Maintained w) :
    ∃ w2, uniformDeleted w x = some w2 := by
  obtain ⟨_, ⟨hact, _⟩, hk⟩ := hm
  by_cases hany0 : w.s_staticVars.any (fun sv => decide (x = sv)) = true
  · exact ⟨w, by simp [uniformDeleted, hany0]⟩
  · have hany : w.s_staticVars.any (fun sv => decide (x = sv)) = false :=
      Bool.eq_false_iff.mpr hany0
    have hnd : w.activeUniforms.Nodup := List.Nodup.of_map _ hk
    obtain ⟨h2, e2⟩ := sweep_once x w.activeUniforms w.heap
      (List.nodup_iff_count_le_one.mp hnd x) (fun hin => (hact x hin).1)
    exact ⟨{ w with heap := h2, activeUniforms := removeAll w.activeUniforms x },
      by simp only [uniformDeleted, hany, Bool.false_eq_true, if_false, e2]⟩

theorem maintained_loaded (w : GLWidget) (file : Option (List UniformVariable)) (r : LoadOutcome)
    (hm : Maintained w) (e : loadUniforms w file = some r) : Maintained r.widget := by
  obtain ⟨h1, hs, hk⟩ := hm
  have hact := hs.1
  have hperm := hs.2
  cases file with
  | none =>
    have hr : r = ⟨false, (loadUniforms.cleared w), []⟩ := (Option.some.inj e).symm
    subst hr
    have ha : (loadUniforms.cleared w).activeUniforms = w.activeUniforms := rfl
    have hp : (loadUniforms.cleared w).permUniforms = [] := rfl
    have hb : (loadUniforms.cleared w).heap.brk = w.heap.brk := foldl_free_brk _ _
    have hq : ∀ q, q ∉ w.permUniforms →
        (loadUniforms.cleared w).heap.cells q = w.heap.cells q := by
      intro q hq
      show (w.permUniforms.foldl Heap.free w.heap).cells q = _
      rw [foldl_free_cells]
      simp [hq]
    have hc : ∀ u ∈ w.activeUniforms,
        (loadUniforms.cleared w).heap.cells u = w.heap.cells u :=
      fun u hu => hq u (hact u hu).2.2
    refine ⟨?_, ⟨?_, ?_⟩, ?_⟩
    · intro q hge
      rw [hb] at hge
      by_cases hin : q ∈ w.permUniforms
      · have := hperm q hin
        omega
      · rw [hq q hin]; exact h1 q hge
    · intro u hu
      rw [ha] at hu
      obtain ⟨a1, a2, _⟩ := hact u hu
      exact ⟨by rw [hc u hu]; exact a1, by rw [hb]; exact a2, by rw [hp]; simp⟩
    · intro p hpin
      rw [hp] at hpin
      simp at hpin
    · unfold OneBindingEach activeKeys
      rw [ha]
      have : w.activeUniforms.map
            (fun u => ((loadUniforms.cleared w).heap.cells u).map (fun y => (y.name, y.type)))
          = w.activeUniforms.map (fun u => (w.heap.cells u).map (fun y => (y.name, y.type))) := by
        apply List.map_congr_left
        intro u hu
        rw [hc u hu]
      rw [this]
      exact hk
  | some C =>
    obtain ⟨r2, e2, _, ha, _, hp, _, hb, hc, _, _, hbeyond⟩ := loadUniforms_parsed w C hs
    have hr : r2 = r := Option.some.inj (e2.symm.trans e)
    subst hr
    have hlen : (List.range' w.heap.brk C.length).length = C.length := List.length_range' _ _ _
    have hpr : ∀ p ∈ r2.widget.permUniforms, w.heap.brk ≤ p ∧ p < w.heap.brk + C.length := by
      intro p hpin
      rw [hp] at hpin
      obtain ⟨c, hcm, rfl⟩ := List.mem_map.mp hpin
      have hcz := (List.mem_filter.mp hcm).1
      have : c.1 ∈ List.range' w.heap.brk C.length := by
        have := List.mem_map_of_mem Prod.fst hcz
        rwa [candidateAddrs, List.map_fst_zip _ _ (by rw [hlen])] at this
      have := List.mem_range'_1.mp this
      omega
    refine ⟨?_, ⟨?_, ?_⟩, ?_⟩
    · intro q hge
      rw [hb] at hge
      rw [hbeyond q hge]
      exact h1 q (by omega)
    · intro u hu
      rw [ha] at hu
      obtain ⟨a1, a2, _⟩ := hact u hu
      obtain ⟨y, hy⟩ := Option.isSome_iff_exists.mp a1
      refine ⟨by rw [hc u hu, hy]; rfl, by rw [hb]; omega, ?_⟩
      intro hin
      have := (hpr u hin).1
      omega
    · intro p hpin
      rw [hb]
      exact (hpr p hpin).2
    · unfold OneBindingEach activeKeys
      rw [ha]
      have : w.activeUniforms.map (fun u => (r2.widget.heap.cells u).map (fun y => (y.name, y.type)))
          = w.activeUniforms.map (fun u => (w.heap.cells u).map (fun y => (y.name, y.type))) := by
        apply List.map_congr_left
        intro u hu
        rw [hc u hu, Option.map_map]
        rfl
      rw [this]
      exact hk

theorem maintained_of_reachable (w : GLWidget) (hr : Reachable FreshBinding w) :
    Maintained w := by
  induction hr with
  | start w h0 h1 h2 =>
    refine ⟨h1, ⟨?_, h2⟩, ?_⟩
    · intro u hu
      rw [h0] at hu
      simp at hu
    · unfold OneBindingEach activeKeys
      rw [h0]
      exact List.nodup_nil
  | added w x _ hf ih => exact maintained_added w x ih hf
  | deleted w w2 x _ e ih => exact maintained_deleted w w2 x ih e
  | loaded w file r _ e ih => exact maintained_loaded w file r ih e

/-- C10, as stated, fails: from the empty registry two `uniformAdded` calls with
two objects of the same name and variant lead to an active set with two
bindings for ("color", 3-vector); `uniformAdded` appends without looking. -/
theorem one_binding_counterexample :
    Reachable (fun _ _ => True) (uniformAdded (uniformAdded (GLWidget.ctor twinHeap) 0) 1)
    ∧ activeKeys (uniformAdded (uniformAdded (GLWidget.ctor twinHeap) 0) 1)
      = [some ("color", UniformType.TYPE_FLOAT3), some ("color", UniformType.TYPE_FLOAT3)]
    ∧ ¬ OneBindingEach (uniformAdded (uniformAdded (GLWidget.ctor twinHeap) 0) 1) := by
  refine ⟨?_, rfl, by decide⟩
  apply Reachable.added _ _ _ trivial
  apply Reachable.added _ _ _ trivial
  apply Reachable.start _ rfl
  · intro q hq
    have hq2 : 2 ≤ q := hq
    show [(⟨"color", UniformType.TYPE_FLOAT3, false, "1,0,0"⟩ : UniformVariable),
      ⟨"color", UniformType.TYPE_FLOAT3, false, "0,1,0"⟩][q]? = none
    exact List.getElem?_eq_none (by simpa using hq2)
  · intro p hp
    exact absurd hp (List.not_mem_nil p)

/-- C10, amended: in every registry state reachable from an empty active set
through `uniformAdded`, `uniformDeleted` and `loadUniforms` calls in which every
`uniformAdded` call passes a live uniform that is not an overflow entry and
whose (name, variant) no active entry holds, the active set holds one binding,
never two, for each (name, variant) pair; `uniformDeleted` and `loadUniforms`
never introduce a second binding. -/
theorem one_binding_when_fresh (w : GLWidget) (hr : Reachable FreshBinding w) :
    OneBindingEach w :=
  (maintained_of_reachable w hr).2.2

/-- Witness of the amended C10: `color` is added, deleted, and its twin added. -/
theorem one_binding_when_fresh_witness :
    ∃ w2, uniformDeleted (uniformAdded (GLWidget.ctor twinHeap) 0) 0 = some w2
      ∧ Reachable FreshBinding (uniformAdded w2 1)
      ∧ OneBindingEach (uniformAdded w2 1) :=
  ⟨_, rfl,
    (fun h => ⟨h, one_binding_when_fresh _ h⟩)
      (Reachable.added _ 1
        (Reachable.deleted (uniformAdded (GLWidget.ctor twinHeap) 0) _ 0
          (Reachable.added _ 0
            (Reachable.start _ rfl
              (fun q hq => List.getElem?_eq_none (by
                have h2 : 2 ≤ q := hq
                simpa using h2))
              (fun p hp => absurd hp (List.not_mem_nil p)))
            ⟨by decide, ⟨"color", UniformType.TYPE_FLOAT3, false, "1,0,0"⟩, rfl, by decide⟩)
          rfl)
        ⟨by decide, ⟨"color", UniformType.TYPE_FLOAT3, false, "0,1,0"⟩, rfl, by decide⟩)⟩

/-! ## Saving -/

theorem foldl_collect (l : List Nat) :
    ∀ acc : List Nat, l.foldl (fun toSave v => toSave ++ [v]) acc = acc ++ l := by
  induction l with
  | nil => intro acc; simp
  | cons y ys ih =>
    intro acc
    simp only [List.foldl_cons, ih, List.append_assoc, List.singleton_append]

/-- C11: `saveUniforms` hands to `VarsFile::save` the active pointers in active-set
order followed by the overflow pointers in overflow order, none added and none
dropped; it returns what the serializer returns for that list and changes
neither collection (the registry is as before). -/
theorem saveUniforms_union (save : List Nat → Heap → Bool) (w : GLWidget) :
    (saveUniforms save w).toSave = w.activeUniforms ++ w.permUniforms
    ∧ (saveUniforms save w).toSave.length = w.activeUniforms.length + w.permUniforms.length
    ∧ (saveUniforms save w).ok = save (w.activeUniforms ++ w.permUniforms) w.heap
    ∧ (saveUniforms save w).widget = w := by
  have h : (saveUniforms save w).toSave = w.activeUniforms ++ w.permUniforms := by
    simp only [saveUniforms, foldl_collect, List.nil_append]
  refine ⟨h, by rw [h, List.length_append], ?_, rfl⟩
  simp only [saveUniforms, foldl_collect, List.nil_append]

/-! ## Introspection -/

theorem introspect_eq_filter_map (tf : Nat → UniformType) (reported : List ActiveUniform) :
    loadShader.introspect tf reported
      = (reported.filter (fun a => !startsWith a.name "gl_")).map
          (fun a => AddUniform.mk (tf a.type) a.name true a.arraySize) := by
  induction reported with
  | nil => rfl
  | cons a rest ih =>
    by_cases hgl : startsWith a.name "gl_" = true
    · simp [loadShader.introspect, hgl, ih]
    · simp [loadShader.introspect, hgl, ih]

/-- C12: for the sequence of active uniforms the graphics API reports,
`loadShader` emits one `addUniform` for each uniform whose name does not start
with "gl_", carrying the mapped variant, the name and the array size, in the
order of the report, and none for a name that starts with "gl_"; a second run
on the same report emits the same sequence. -/
theorem loadShader_announces (tf : Nat → UniformType) (w : GLWidget)
    (reported : List ActiveUniform) :
    (loadShader tf w (some reported)).ok = true
    ∧ (loadShader tf w (some reported)).emitted
      = (reported.filter (fun a => !startsWith a.name "gl_")).map
          (fun a => AddUniform.mk (tf a.type) a.name true a.arraySize)
    ∧ (∀ s ∈ (loadShader tf w (some reported)).emitted, startsWith s.name "gl_" = false)
    ∧ (loadShader tf (loadShader tf w (some reported)).widget (some reported)).emitted
      = (loadShader tf w (some reported)).emitted := by
  have h : (loadShader tf w (some reported)).emitted
      = (reported.filter (fun a => !startsWith a.name "gl_")).map
          (fun a => AddUniform.mk (tf a.type) a.name true a.arraySize) :=
    introspect_eq_filter_map tf reported
  refine ⟨rfl, h, ?_, rfl⟩
  intro s hs
  rw [h] at hs
  obtain ⟨a, ha, rfl⟩ := List.mem_map.mp hs
  have := (List.mem_filter.mp ha).2
  simpa using this

/-- C14: `uniformAdded(x)` leaves as active list the previous one with `x`
appended as its last element, the earlier entries in their order; the overflow
list, the static list and all objects are as before. -/
theorem uniformAdded_appends (w : GLWidget) (x : Nat) :
    (uniformAdded w x).activeUniforms = w.activeUniforms ++ [x]
    ∧ (uniformAdded w x).activeUniforms.getLast? = some x
    ∧ (uniformAdded w x).activeUniforms.take w.activeUniforms.length = w.activeUniforms
    ∧ (uniformAdded w x).permUniforms = w.permUniforms
    ∧ (uniformAdded w x).s_staticVars = w.s_staticVars
    ∧ (uniformAdded w x).heap = w.heap := by
  refine ⟨rfl, ?_, ?_, rfl, rfl, rfl⟩
  · simp [uniformAdded]
  · simp [uniformAdded]

/-! ## Shader swap and the active set -/

/-- C13, as stated, fails: the only active uniform of this registry is the
permanent `glow`; after a successful `loadShader` on a program that exposes one
other uniform, `glow` is still the active set and the overflow list is still
empty: it was neither removed nor relocated. -/
theorem loadShader_replaces_counterexample :
    (loadShader demoTypeFromGLEnum glowWidget (some [⟨"fresh", 1, 5126⟩])).ok = true
    ∧ (loadShader demoTypeFromGLEnum glowWidget (some [⟨"fresh", 1, 5126⟩])).emitted
        = [⟨UniformType.TYPE_FLOAT, "fresh", true, 1⟩]
    ∧ glowWidget.heap.cells 0 = some ⟨"glow", UniformType.TYPE_FLOAT, true, "2"⟩
    ∧ (loadShader demoTypeFromGLEnum glowWidget (some [⟨"fresh", 1, 5126⟩])).widget.activeUniforms
        = [0]
    ∧ (loadShader demoTypeFromGLEnum glowWidget (some [⟨"fresh", 1, 5126⟩])).widget.permUniforms
        = [] :=
  ⟨rfl, by decide, rfl, rfl, rfl⟩

/-- C13, amended: a successful `loadShader` leaves the active set and the overflow
set as they were and only announces the uniforms it discovers with `addUniform`;
the `uniformAdded` calls that follow append to the previous active set, so every
previous active entry, re-discovered or not, stays active, and none is moved to
the overflow set. -/
theorem loadShader_keeps_active (tf : Nat → UniformType) (w : GLWidget)
    (reported : List ActiveUniform) (added : List Nat) :
    (loadShader tf w (some reported)).ok = true
    ∧ (loadShader tf w (some reported)).widget.activeUniforms = w.activeUniforms
    ∧ (loadShader tf w (some reported)).widget.permUniforms = w.permUniforms
    ∧ (loadShader tf w (some reported)).widget.heap = w.heap
    ∧ (added.foldl uniformAdded (loadShader tf w (some reported)).widget).activeUniforms
        = w.activeUniforms ++ added
    ∧ (∀ u ∈ w.activeUniforms,
        u ∈ (added.foldl uniformAdded (loadShader tf w (some reported)).widget).activeUniforms)
    ∧ (added.foldl uniformAdded (loadShader tf w (some reported)).widget).permUniforms
        = w.permUniforms := by
  obtain ⟨_, h2, _, h4⟩ := foldl_uniformAdded added w
  have hw : (loadShader tf w (some reported)).widget = w := rfl
  refine ⟨rfl, rfl, rfl, rfl, by rw [hw]; exact h4, ?_, by rw [hw]; exact h2⟩
  intro u hu
  rw [hw, h4]
  exact List.mem_append_left _ hu

/-! ## Loading the same file twice -/

theorem lastFlag_setPermanent (C : List UniformVariable) (u : UniformVariable) (b : Bool) :
    lastFlag C (u.setPermanent b)
      = match C.reverse.find? (fun v => sameBinding v u) with
        | some v => v.permanent
        | none => b := rfl

theorem lastFlag_setPermanent_self (C : List UniformVariable) (u : UniformVariable) :
    lastFlag C (u.setPermanent (lastFlag C u)) = lastFlag C u := by
  rw [lastFlag_setPermanent]
  cases hc : C.reverse.find? (fun v => sameBinding v u) with
  | none => rfl
  | some v => simp [lastFlag, hc]

theorem sound_loaded (w : GLWidget) (C : List UniformVariable) (r : LoadOutcome)
    (hs : Sound w) (e : loadUniforms w (some C) = some r) : Sound r.widget := by
  obtain ⟨r2, e2, _, ha, _, hp, _, hb, hc, _, _, _⟩ := loadUniforms_parsed w C hs
  have hr : r2 = r := Option.some.inj (e2.symm.trans e)
  subst hr
  have hlen : (List.range' w.heap.brk C.length).length = C.length := List.length_range' _ _ _
  have hpr : ∀ p ∈ r2.widget.permUniforms, w.heap.brk ≤ p ∧ p < w.heap.brk + C.length := by
    intro p hpin
    rw [hp] at hpin
    obtain ⟨c, hcm, rfl⟩ := List.mem_map.mp hpin
    have hcz := (List.mem_filter.mp hcm).1
    have : c.1 ∈ List.range' w.heap.brk C.length := by
      have := List.mem_map_of_mem Prod.fst hcz
      rwa [candidateAddrs, List.map_fst_zip _ _ (by rw [hlen])] at this
    have := List.mem_range'_1.mp this
    omega
  refine ⟨?_, ?_⟩
  · intro u hu
    rw [ha] at hu
    obtain ⟨a1, a2, _⟩ := hs.1 u hu
    obtain ⟨y, hy⟩ := Option.isSome_iff_exists.mp a1
    refine ⟨by rw [hc u hu, hy]; rfl, by rw [hb]; omega, ?_⟩
    intro hin
    have := (hpr u hin).1
    omega
  · intro p hpin
    rw [hb]
    exact (hpr p hpin).2

theorem overflow_values (w : GLWidget) (C : List UniformVariable) (r : LoadOutcome)
    (hperm : r.widget.permUniforms
      = (((candidateAddrs w.heap C.length).zip C).filter
          (fun c => overflows w.heap w.activeUniforms c.2)).map Prod.fst)
    (hcand : ∀ c ∈ (candidateAddrs w.heap C.length).zip C, r.widget.heap.cells c.1
      = if overflows w.heap w.activeUniforms c.2 then some c.2 else none) :
    r.widget.permUniforms.map r.widget.heap.cells
      = (C.filter (overflows w.heap w.activeUniforms)).map some := by
  have hlen : (List.range' w.heap.brk C.length).length = C.length := List.length_range' _ _ _
  have hsnd : ((candidateAddrs w.heap C.length).zip C).map Prod.snd = C :=
    List.map_snd_zip _ _ (by rw [candidateAddrs, hlen])
  rw [hperm, List.map_map]
  have h1 : List.map (r.widget.heap.cells ∘ Prod.fst)
      (((candidateAddrs w.heap C.length).zip C).filter
        (fun c => overflows w.heap w.activeUniforms c.2))
      = List.map (some ∘ Prod.snd)
        (((candidateAddrs w.heap C.length).zip C).filter
          (fun c => overflows w.heap w.activeUniforms c.2)) := by
    apply List.map_congr_left
    intro c hc
    obtain ⟨hc1, hc2⟩ := List.mem_filter.mp hc
    simp only [Function.comp, hcand c hc1, hc2, if_true]
  rw [h1, ← List.map_map]
  congr 1
  have h2 : (fun c : Nat × UniformVariable => overflows w.heap w.activeUniforms c.2)
      = (fun v => overflows w.heap w.activeUniforms v) ∘ Prod.snd := rfl
  rw [h2, ← List.filter_map, hsnd]

/-- C15: `loadUniforms` is idempotent on a file that parses to the same candidates
`C` both times: the second call succeeds and leaves the active list and every
active object (flags included) as the first call left them, an overflow list
with the same contents in the same order (held by newly allocated objects), and
it emits the same `changeUniform` sequence as the first call. -/
theorem loadUniforms_idempotent (w : GLWidget) (C : List UniformVariable) (hs : Sound w) :
    ∃ r1 r2, loadUniforms w (some C) = some r1
      ∧ loadUniforms r1.widget (some C) = some r2
      ∧ r2.ok = true
      ∧ r2.widget.activeUniforms = r1.widget.activeUniforms
      ∧ (∀ u ∈ r1.widget.activeUniforms, r2.widget.heap.cells u = r1.widget.heap.cells u)
      ∧ r2.widget.permUniforms.map r2.widget.heap.cells
          = r1.widget.permUniforms.map r1.widget.heap.cells
      ∧ r2.widget.s_staticVars = r1.widget.s_staticVars
      ∧ r2.emitted = r1.emitted := by
  obtain ⟨r1, e1, _, ha1, _, hp1, hsig1, _, hc1, hcand1, _, _⟩ := loadUniforms_parsed w C hs
  have hs1 : Sound r1.widget := sound_loaded w C r1 hs e1
  obtain ⟨r2, e2, hok2, ha2, hst2, hp2, hsig2, _, hc2, hcand2, _, _⟩ :=
    loadUniforms_parsed r1.widget C hs1
  have hhit : ∀ (y : UniformVariable), ∀ u ∈ w.activeUniforms,
      hits r1.widget.heap y u = hits w.heap y u := by
    intro y u hu
    exact hits_congr w.heap r1.widget.heap y u
      (fun uu => uu.setPermanent (lastFlag C uu)) (fun _ => rfl) (hc1 u hu)
  have hov : ∀ y, overflows r1.widget.heap r1.widget.activeUniforms y
      = overflows w.heap w.activeUniforms y := by
    intro y; unfold overflows; rw [ha1, any_hits_congr _ _ y _ (hhit y)]
  have hsg : ∀ y, signalsFor r1.widget.heap r1.widget.activeUniforms y
      = signalsFor w.heap w.activeUniforms y := by
    intro y; unfold signalsFor; rw [ha1, filter_hits_congr _ _ y _ (hhit y)]
  refine ⟨r1, r2, e1, e2, hok2, ha2, ?_, ?_, hst2, ?_⟩
  · intro u hu
    have hu0 : u ∈ w.activeUniforms := ha1 ▸ hu
    obtain ⟨u0, h0⟩ := Option.isSome_iff_exists.mp (hs.1 u hu0).1
    rw [hc2 u hu, hc1 u hu0, h0]
    simp only [Option.map_some', lastFlag_setPermanent_self]
    rfl
  · rw [overflow_values r1.widget C r2 hp2 hcand2, overflow_values w C r1 hp1 hcand1]
    congr 1
    exact List.filter_congr (fun y _ => hov y)
  · rw [hsig2, hsig1]
    congr 1
    exact List.map_congr_left (fun y _ => hsg y)

/-- Witness of C15 on the demo registry and file. -/
theorem loadUniforms_idempotent_witness :
    Sound demoWidget ∧
    ∃ r1 r2, loadUniforms demoWidget (some demoFile) = some r1
      ∧ loadUniforms r1.widget (some demoFile) = some r2
      ∧ r2.ok = true
      ∧ r2.widget.activeUniforms = r1.widget.activeUniforms
      ∧ (∀ u ∈ r1.widget.activeUniforms, r2.widget.heap.cells u = r1.widget.heap.cells u)
      ∧ r2.widget.permUniforms.map r2.widget.heap.cells
          = r1.widget.permUniforms.map r1.widget.heap.cells
      ∧ r2.widget.s_staticVars = r1.widget.s_staticVars
      ∧ r2.emitted = r1.emitted :=
  ⟨by decide, loadUniforms_idempotent demoWidget demoFile (by decide)⟩

end GLWidgetModel
